import Mathlib

/-! # istio-virtualservice-merger: the reconciliation driver

A shallow embedding of `controller/reconciler.go` (`Reconcile`, `updateTarget`),
of the `oputil` list helpers it calls, and of two parts of the vendored
operator-helper: `contextImpl.Run` and the environment helpers of `oputil`.

The Go code talks to an external resource store through four calls (fetch and
update of the target, update of the patch, update of the patch status).  The
store is embedded as an oracle over an arbitrary state type: every call returns
its answer and the next oracle state, so a theorem quantified over the oracle
holds for every behaviour of the store.  Each call and each logger line is
recorded, in order, in the trace of the run; of a logger line the message is
kept, not its key and value pairs.  The debugging `fmt.Println` lines of
`updateTarget` and the ignored `yaml.Marshal` results have no influence on
control flow and are left out.  An update answers with nil or an error, as in
section 6 of the specification: the fields of the patch in memory are those
`Reconcile` assigns.

The patch is passed by pointer in Go and assigned in place; here the patch as
the run leaves it is a component of the outcome.
-/

namespace VSMerger

/-! ## Errors -/

/-- Go error values: an API status error carrying its reason, any other error,
and an error wrapped by `fmt.Errorf("...%w", err)`. -/
inductive Err where
  | status (reason : String) (msg : String)
  | plain (msg : String)
  | wrap (msg : String) (inner : Err)
  deriving DecidableEq, Repr

/-- The classifier `kerr.IsNotFound` of apimachinery as it is used for the
closed examples: it looks through wrapping for a status error whose reason is
`NotFound`.  The general theorems take the classifier as a parameter. -/
def kerrIsNotFound : Err → Bool
  | .status reason _ => reason == "NotFound"
  | .plain _ => false
  | .wrap _ inner => kerrIsNotFound inner

/-! ## Data model -/

/-- Route fragment of a target list. -/
abbrev Route := String

/-- Modelled from the spec: the istio `VirtualService` type is declared outside
src/; section 3 describes the target as a resource owning ordered TCP, TLS and
HTTP route lists. -/
structure VirtualService where
  Name : String
  Namespace : String
  Tcp : List Route
  Tls : List Route
  Http : List Route
  deriving DecidableEq, Repr

/-- Modelled from the spec: `v1alpha1.Target` is declared outside src/; the code
reads its fields `Name` and `Namespace`. -/
structure Target where
  Name : String
  Namespace : String
  deriving DecidableEq, Repr

/-- Modelled from the spec: the route definitions of a patch (section 3). -/
structure PatchRoutes where
  Tcp : List Route
  Tls : List Route
  Http : List Route
  deriving DecidableEq, Repr

structure VirtualServiceMergeSpec where
  Target : Target
  Patch : PatchRoutes
  deriving DecidableEq, Repr

structure VirtualServiceMergeStatus where
  HandledRevision : String
  deriving DecidableEq, Repr

/-- Modelled from the spec: `v1alpha1.VirtualServiceMerge` is declared outside
src/; these are the fields `Reconcile` and `updateTarget` read and assign.
`DeletionTimestamp` is the nullable `*metav1.Time`, a time being counted from
the zero instant. -/
structure VirtualServiceMerge where
  Name : String
  Namespace : String
  ResourceVersion : String
  DeletionTimestamp : Option Nat
  Finalizers : List String
  Spec : VirtualServiceMergeSpec
  Status : VirtualServiceMergeStatus
  deriving DecidableEq, Repr

/-- `(*metav1.Time).IsZero`: a nil pointer or the zero instant. -/
def IsZero : Option Nat → Bool
  | none => true
  | some t => t == 0

def finalizerName : String := "istiomerger.monime.sl-finalizer"

/-! ## oputil -/

/-- `oputil.Contains`. -/
def Contains : List String → String → Bool
  | [], _ => false
  | item :: rest, key => if key = item then true else Contains rest key

/-- `oputil.ContainsWithPrefix`; `strings.HasPrefix item pre` is
`pre.data <+: item.data`. -/
def ContainsWithPrefix : List String → String → Bool
  | [], _ => false
  | item :: rest, pre =>
    if pre.data.isPrefixOf item.data then true else ContainsWithPrefix rest pre

/-- `oputil.Remove`: the slice without the first item equal to the key, the
haystack itself when there is none. -/
def Remove (key : String) : List String → List String
  | [] => []
  | item :: rest => if key = item then rest else item :: Remove key rest

/-! ## The store, the trace and the run -/

/-- Answer of a fetch of the target. -/
inductive GetResult where
  | ok (target : VirtualService)
  | fail (err : Err)
  deriving DecidableEq, Repr

/-- One observable action of a run: the four store calls with their answers,
and the logger lines. -/
inductive Event where
  | getTarget (ns name : String) (res : GetResult)
  | updateTarget (ns : String) (target : VirtualService) (err : Option Err)
  | updatePatch (patch : VirtualServiceMerge) (err : Option Err)
  | updateStatus (patch : VirtualServiceMerge) (err : Option Err)
  | log (msg : String)
  deriving DecidableEq, Repr

/-- What lies outside `reconciler.go`: the store as an oracle over the state
type `σ`, the classifier `kerr.IsNotFound`, `Target.Validate` and the route
methods of the patch type, which assign the route lists of the fetched
target. -/
structure World (σ : Type) where
  get : σ → String → String → GetResult × σ
  update : σ → String → VirtualService → Option Err × σ
  updatePatch : σ → VirtualServiceMerge → Option Err × σ
  updateStatus : σ → VirtualServiceMerge → Option Err × σ
  isNotFound : Err → Bool
  validate : Target → Option Err
  RemoveTcpRoutes : VirtualServiceMerge → VirtualService → VirtualService
  RemoveTlsRoutes : VirtualServiceMerge → VirtualService → VirtualService
  RemoveHttpRoutes : VirtualServiceMerge → VirtualService → VirtualService
  AddTcpRoutes : VirtualServiceMerge → VirtualService → VirtualService
  AddTlsRoutes : VirtualServiceMerge → VirtualService → VirtualService
  AddHttpRoutes : VirtualServiceMerge → VirtualService → VirtualService

/-- Result of `updateTarget`: the returned error, the store state and the
events of the call. -/
structure Step (σ : Type) where
  err : Option Err
  st : σ
  trace : List Event

/-- Result of `Reconcile`: the returned error, the patch as the run leaves it,
the store state and the events of the run. -/
structure Outcome (σ : Type) where
  err : Option Err
  patch : VirtualServiceMerge
  st : σ
  trace : List Event

variable {σ : Type}

/-- The routes of the patch taken out of, or merged into, the fetched target
(`updateTarget`, the `if remove` block). -/
def patchTarget (w : World σ) (patch : VirtualServiceMerge) (remove : Bool)
    (target : VirtualService) : VirtualService :=
  if remove then
    w.RemoveHttpRoutes patch (w.RemoveTlsRoutes patch (w.RemoveTcpRoutes patch target))
  else
    w.AddHttpRoutes patch (w.AddTlsRoutes patch (w.AddTcpRoutes patch target))

/-- The namespace `updateTarget` and `Reconcile` resolve for the target of a
patch: the declared one, the patch's own one when it is empty. -/
def targetNamespaceOf (patch : VirtualServiceMerge) : String :=
  if patch.Spec.Target.Namespace = "" then patch.Namespace else patch.Spec.Target.Namespace

/-- `updateTarget`. -/
def updateTarget (w : World σ) (s : σ) (patch : VirtualServiceMerge) (remove : Bool) :
    Step σ :=
  match w.validate patch.Spec.Target with
  | some err => ⟨some (.wrap "virtualservicepatch.Reconcile: " err), s, []⟩
  | none =>
    let targetName := patch.Spec.Target.Name
    let targetNamespace := targetNamespaceOf patch
    match w.get s targetNamespace targetName with
    | (.fail err, s1) => ⟨some err, s1, [.getTarget targetNamespace targetName (.fail err)]⟩
    | (.ok target, s1) =>
      let target1 := patchTarget w patch remove target
      match w.update s1 targetNamespace target1 with
      | (some err, s2) =>
        ⟨some err, s2, [.getTarget targetNamespace targetName (.ok target),
          .updateTarget targetNamespace target1 (some err)]⟩
      | (none, s2) =>
        ⟨none, s2, [.getTarget targetNamespace targetName (.ok target),
          .updateTarget targetNamespace target1 none]⟩

def logNotFound : Event := .log "Virtual service not found. Nothing to sync."

def logTargetChanged : Event :=
  .log "Virtual service target changed. Removing patch from old target"

def logAddFinalizer : Event := .log "Adding the finalizer to the patch"

/-- The test of line 48 of `reconciler.go`, with the defaulting of lines 40 to
47: the old and the new target differ in name or in resolved namespace. -/
def targetChanged (oldpatch patch : VirtualServiceMerge) : Bool :=
  let oldTargetName := oldpatch.Spec.Target.Name
  let oldTargetNamespace := oldpatch.Spec.Target.Namespace
  let newTargetName := patch.Spec.Target.Name
  let newTargetNamespace := patch.Spec.Target.Namespace
  let oldTargetNamespace := if oldTargetNamespace = "" then oldpatch.Namespace else oldTargetNamespace
  let newTargetNamespace := if newTargetNamespace = "" then patch.Namespace else newTargetNamespace
  oldTargetName != newTargetName || oldTargetNamespace != newTargetNamespace

/-- Lines 84 to 99 of `Reconcile`: the sync of the current target, run from the
store state `s`. -/
def syncCurrent (w : World σ) (s : σ) (patch : VirtualServiceMerge) : Outcome σ :=
  if patch.ResourceVersion ≠ patch.Status.HandledRevision then
    let r := updateTarget w s patch false
    let patch1 : VirtualServiceMerge :=
      { patch with Status := { patch.Status with HandledRevision := patch.ResourceVersion } }
    let persist (tr : List Event) : Outcome σ :=
      match w.updateStatus r.st patch1 with
      | (some err, s2) =>
        ⟨some (.wrap ("VirtualServiceMerge object (" ++ patch.Name ++ ") status update error: ") err),
          patch1, s2, tr ++ [.updateStatus patch1 (some err)]⟩
      | (none, s2) => ⟨none, patch1, s2, tr ++ [.updateStatus patch1 none]⟩
    match r.err with
    | some err =>
      if w.isNotFound err then persist (r.trace ++ [logNotFound])
      else ⟨some err, patch, r.st, r.trace⟩
    | none => persist r.trace
  else ⟨none, patch, s, []⟩

/-- Lines 69 to 83 of `Reconcile`: the withdrawal from the current target and
the removal of the finalizer, run from the store state `s`. -/
def finalizeCurrent (w : World σ) (s : σ) (patch : VirtualServiceMerge) : Outcome σ :=
  let r := updateTarget w s patch true
  let patch1 : VirtualServiceMerge :=
    { patch with Finalizers := Remove finalizerName patch.Finalizers }
  let persist (tr : List Event) : Outcome σ :=
    match w.updatePatch r.st patch1 with
    | (some err, s2) =>
      ⟨some (.wrap ("VirtualServiceMerge object (" ++ patch.Name ++ ") update error: ") err),
        patch1, s2, tr ++ [.updatePatch patch1 (some err)]⟩
    | (none, s2) => ⟨none, patch1, s2, tr ++ [.updatePatch patch1 none]⟩
  match r.err with
  | some err =>
    if w.isNotFound err then persist (r.trace ++ [logNotFound])
    else ⟨some err, patch, r.st, r.trace⟩
  | none => persist r.trace

/-- Lines 62 to 99 of `Reconcile`: the finalizer protocol and the sync, run from
the store state `s`. -/
def reconcileCurrent (w : World σ) (s : σ) (patch : VirtualServiceMerge) : Outcome σ :=
  if IsZero patch.DeletionTimestamp then
    if !ContainsWithPrefix patch.Finalizers finalizerName then
      let patch1 : VirtualServiceMerge :=
        { patch with Finalizers := patch.Finalizers ++ [finalizerName] }
      match w.updatePatch s patch1 with
      | (err, s1) => ⟨err, patch1, s1, [logAddFinalizer, .updatePatch patch1 err]⟩
    else syncCurrent w s patch
  else if Contains patch.Finalizers finalizerName then finalizeCurrent w s patch
  else syncCurrent w s patch

/-- Lines 37 to 60 of `Reconcile`: the withdrawal from the old target when the
target changed.  An error in the result is the error `Reconcile` returns at
line 56; `oldpatchref` is the previous snapshot, `none` for nil. -/
def migrate (w : World σ) (s : σ) (patch : VirtualServiceMerge)
    (oldpatchref : Option VirtualServiceMerge) : Step σ :=
  match oldpatchref with
  | none => ⟨none, s, []⟩
  | some oldpatch =>
    if targetChanged oldpatch patch then
      let r := updateTarget w s oldpatch true
      match r.err with
      | some err =>
        if w.isNotFound err then ⟨none, r.st, logTargetChanged :: r.trace ++ [logNotFound]⟩
        else ⟨some err, r.st, logTargetChanged :: r.trace⟩
      | none => ⟨none, r.st, logTargetChanged :: r.trace⟩
    else ⟨none, s, []⟩

/-- The outcome `o` of a part of a run that follows the events `pre`. -/
def Outcome.after (pre : List Event) (o : Outcome σ) : Outcome σ :=
  { o with trace := pre ++ o.trace }

/-- `Reconcile`. -/
def Reconcile (w : World σ) (s : σ) (patch : VirtualServiceMerge)
    (oldpatchref : Option VirtualServiceMerge) : Outcome σ :=
  let m := migrate w s patch oldpatchref
  match m.err with
  | some err => ⟨some err, patch, m.st, m.trace⟩
  | none => (reconcileCurrent w m.st patch).after m.trace

/-! ## Vocabulary of the statements -/

/-- The patch with its handled revision set to its resource version (line 93). -/
def markHandled (patch : VirtualServiceMerge) : VirtualServiceMerge :=
  { patch with Status := { patch.Status with HandledRevision := patch.ResourceVersion } }

/-- The patch with the finalizer taken out by `Remove` (line 78). -/
def dropFinalizer (patch : VirtualServiceMerge) : VirtualServiceMerge :=
  { patch with Finalizers := Remove finalizerName patch.Finalizers }

/-- The events of a call of `updateTarget` that `Reconcile` lets pass: those of
the call, and the log line when the call ended in a not-found error. -/
def passedTrace (r : Step σ) : List Event :=
  if r.err = none then r.trace else r.trace ++ [logNotFound]

/-- The call of `updateTarget` ended without error or in an error classified as
not found, the two cases in which `Reconcile` goes on. -/
def Passed (w : World σ) (r : Step σ) : Prop :=
  r.err = none ∨ ∃ e, r.err = some e ∧ w.isNotFound e = true

/-- The resolved identity of the target of a patch, in the words of section
4.3: name and namespace, an empty namespace replaced by the namespace of the
patch itself. -/
def resolvedTarget (patch : VirtualServiceMerge) : String × String :=
  (patch.Spec.Target.Name,
    if patch.Spec.Target.Namespace = "" then patch.Namespace else patch.Spec.Target.Namespace)

/-! ## A concrete world for closed examples -/

/-- Modelled from the spec: `Target.Validate` (api/v1alpha1, outside src/);
section 7 gives a missing required field as the validation error. -/
def validateTarget (t : Target) : Option Err :=
  if t.Name = "" then some (.plain "target name is required") else none

/-- Modelled from the spec: `withdraw` of section 4.2 on one route list, the
entries of the patch taken out. -/
def withdrawRoutes (mine : List Route) (routes : List Route) : List Route :=
  routes.filter (fun r => !mine.contains r)

/-- Modelled from the spec: `apply` of section 4.2 on one route list, the
entries of the patch that are not yet present appended at the end. -/
def applyRoutes (mine : List Route) (routes : List Route) : List Route :=
  routes ++ mine.filter (fun r => !routes.contains r)

/-- A store that gives the same answer to every call of a kind, with the
classifier, the validation and the route methods above. -/
def fixedWorld (getAns : GetResult) (updateAns patchAns statusAns : Option Err) :
    World Unit where
  get := fun _ _ _ => (getAns, ())
  update := fun _ _ _ => (updateAns, ())
  updatePatch := fun _ _ => (patchAns, ())
  updateStatus := fun _ _ => (statusAns, ())
  isNotFound := kerrIsNotFound
  validate := validateTarget
  RemoveTcpRoutes := fun p t => { t with Tcp := withdrawRoutes p.Spec.Patch.Tcp t.Tcp }
  RemoveTlsRoutes := fun p t => { t with Tls := withdrawRoutes p.Spec.Patch.Tls t.Tls }
  RemoveHttpRoutes := fun p t => { t with Http := withdrawRoutes p.Spec.Patch.Http t.Http }
  AddTcpRoutes := fun p t => { t with Tcp := applyRoutes p.Spec.Patch.Tcp t.Tcp }
  AddTlsRoutes := fun p t => { t with Tls := applyRoutes p.Spec.Patch.Tls t.Tls }
  AddHttpRoutes := fun p t => { t with Http := applyRoutes p.Spec.Patch.Http t.Http }

def notFoundErr : Err := .status "NotFound" "virtualservice svc-a not found"

def conflictErr : Err := .status "Conflict" "the object has been modified"

def svcA : VirtualService :=
  { Name := "svc-a", Namespace := "default", Tcp := [], Tls := [], Http := ["other"] }

/-- A patch for `svc-a` with two HTTP routes, revision 2, handled revision 1. -/
def examplePatch (deletion : Option Nat) (finalizers : List String) : VirtualServiceMerge :=
  { Name := "p1", Namespace := "default", ResourceVersion := "2",
    DeletionTimestamp := deletion, Finalizers := finalizers,
    Spec := { Target := { Name := "svc-a", Namespace := "" },
              Patch := { Tcp := [], Tls := [], Http := ["r1", "r2"] } },
    Status := { HandledRevision := "1" } }

/-- The example patch with the required name of its target left empty. -/
def invalidTargetPatch : VirtualServiceMerge :=
  { examplePatch none [finalizerName] with Spec :=
      { Target := { Name := "", Namespace := "" },
        Patch := { Tcp := [], Tls := [], Http := ["r1", "r2"] } } }

/-! ## operator-helper: `contextImpl.Run`

The request object is fetched through the client, which fills it in; the
callback is a closure over the store.  Start time and duration only feed the
log lines and are left out. -/

/-- `reconcile.Result`, the field `Run` sets. -/
structure Result where
  Requeue : Bool
  deriving DecidableEq, Repr

/-- One observable action of `Run`: logger lines, the fetch of the request
object, the call of the callback and the two defaulting updates, with their
answers. -/
inductive RunEvent where
  | info (msg : String)
  | error (err : Err) (msg : String)
  | get (err : Option Err)
  | reconcile (deleted : Bool) (err : Option Err)
  | update (err : Option Err)
  | statusUpdate (err : Option Err)
  deriving DecidableEq, Repr

/-- What lies outside `Run`: the client over the state type `ρ` (the fetch
answers with the object filled in, or an error), the callback, the accessor
`GetDeletionTimestamp` of the object type `α`, whether the object implements
`Defaulting` and its two methods (each answers whether it set anything, with
the object as it leaves it; a method that answers false has set nothing), and
the classifier `errors.IsNotFound`. -/
structure RunWorld (ρ α : Type) where
  get : ρ → α → (Err ⊕ α) × ρ
  reconcile : Bool → ρ → Option Err × ρ
  GetDeletionTimestamp : α → Option Nat
  isDefaulting : α → Bool
  SetSpecDefaults : α → Bool × α
  SetStatusDefaults : α → Bool × α
  update : ρ → α → Option Err × ρ
  statusUpdate : ρ → α → Option Err × ρ
  isNotFound : Err → Bool

/-- Result of `Run`: the returned result and error, the object, the store state
and the events of the run. -/
structure RunOutcome (ρ α : Type) where
  result : Result
  err : Option Err
  object : α
  st : ρ
  trace : List RunEvent

/-- `complete`: the log line, and the values returned. -/
def complete : RunEvent × Result × Option Err :=
  (.info "[Complete] Reconciliation", { Requeue := false }, none)

/-- `errored`: the log line, and the values returned. -/
def errored (err : Err) : RunEvent × Result × Option Err :=
  (.error err "[Error] Reconciliation", { Requeue := true }, some err)

def logStart : RunEvent := .info "[Start] Reconciliation"

def logEnd : RunEvent := .info "[End] Reconciliation"

def logScheduledForDelete : RunEvent :=
  .info "The request object has been scheduled for delete"

def logSpecDefaults : RunEvent := .info "Setting the default spec of the request object"

def logStatusDefaults : RunEvent := .info "Setting the default status of the request object"

/-- The return of `Run` through `complete` or `errored` after the events `tr`:
the log line of the helper, then the deferred `end`. -/
def RunOutcome.returning {ρ α : Type} (object : α) (st : ρ) (tr : List RunEvent)
    (r : RunEvent × Result × Option Err) : RunOutcome ρ α :=
  ⟨r.2.1, r.2.2, object, st, logStart :: tr ++ [r.1, logEnd]⟩

/-- `contextImpl.Run`. -/
def Run {ρ α : Type} (w : RunWorld ρ α) (s : ρ) (object : α) : RunOutcome ρ α :=
  match w.get s object with
  | (.inl err, s1) =>
    if w.isNotFound err then .returning object s1 [.get (some err)] complete
    else .returning object s1 [.get (some err)] (errored err)
  | (.inr object, s1) =>
    match w.GetDeletionTimestamp object with
    | some _ =>
      match w.reconcile true s1 with
      | (some err, s2) =>
        .returning object s2 [.get none, logScheduledForDelete, .reconcile true (some err)]
          (errored err)
      | (none, s2) =>
        .returning object s2 [.get none, logScheduledForDelete, .reconcile true none] complete
    | none =>
      let afterStatus (object : α) (s3 : ρ) (tr : List RunEvent) : RunOutcome ρ α :=
        match w.reconcile false s3 with
        | (some err, s4) => .returning object s4 (tr ++ [.reconcile false (some err)]) (errored err)
        | (none, s4) => .returning object s4 (tr ++ [.reconcile false none]) complete
      let afterSpec (object : α) (s2 : ρ) (tr : List RunEvent) : RunOutcome ρ α :=
        if w.isDefaulting object && (w.SetStatusDefaults object).1 then
          let object := (w.SetStatusDefaults object).2
          match w.statusUpdate s2 object with
          | (some err, s3) =>
            .returning object s3 (tr ++ [logStatusDefaults, .statusUpdate (some err)]) (errored err)
          | (none, s3) => afterStatus object s3 (tr ++ [logStatusDefaults, .statusUpdate none])
        else afterStatus object s2 tr
      if w.isDefaulting object && (w.SetSpecDefaults object).1 then
        let object := (w.SetSpecDefaults object).2
        match w.update s1 object with
        | (some err, s2) =>
          .returning object s2 [.get none, logSpecDefaults, .update (some err)] (errored err)
        | (none, s2) => afterSpec object s2 [.get none, logSpecDefaults, .update none]
      else afterSpec object s1 [.get none]

/-- A client and a callback that give the same answer to every call, on
`VirtualServiceMerge` objects without defaulting; the fetch answers with the
object `fetched`. -/
def fixedRunWorld (fetched : VirtualServiceMerge) (callbackAns : Option Err) :
    RunWorld Unit VirtualServiceMerge where
  get := fun _ _ => (.inr fetched, ())
  reconcile := fun _ _ => (callbackAns, ())
  GetDeletionTimestamp := fun o => o.DeletionTimestamp
  isDefaulting := fun _ => false
  SetSpecDefaults := fun o => (false, o)
  SetStatusDefaults := fun o => (false, o)
  update := fun _ _ => (none, ())
  statusUpdate := fun _ _ => (none, ())
  isNotFound := kerrIsNotFound

/-! ## oputil: environment helpers

`strconv.ParseFloat` and the conversion of a float64 to int64 are parameters:
the type `φ` stands for float64. -/

/-- The process environment; `os.Getenv` answers the empty string for a
variable that is not set. -/
abbrev Env := String → Option String

def Getenv (env : Env) (key : String) : String := (env key).getD ""

/-- `unicode.IsSpace`. -/
def isSpace (c : Char) : Bool :=
  c == '\t' || c == '\n' || c.toNat == 0x0B || c.toNat == 0x0C || c == '\r' || c == ' ' ||
  c.toNat == 0x85 || c.toNat == 0xA0 || c.toNat == 0x1680 ||
  (0x2000 ≤ c.toNat && c.toNat ≤ 0x200A) || c.toNat == 0x2028 || c.toNat == 0x2029 ||
  c.toNat == 0x202F || c.toNat == 0x205F || c.toNat == 0x3000

/-- `strings.TrimSpace`. -/
def TrimSpace (s : String) : String :=
  ⟨((s.data.dropWhile isSpace).reverse.dropWhile isSpace).reverse⟩

/-- How a call of the helpers ends: it returns, it panics, or `log.Fatalf`
ends the process. -/
inductive Exec (α : Type) where
  | ret (a : α)
  | panics (err : String)
  | fatal (msg : String)
  deriving DecidableEq, Repr

/-- `Value`. -/
def Value (env : Env) (envVar : String) : String := TrimSpace (Getenv env envVar)

/-- `RequireValue`. -/
def RequireValue (env : Env) (envVar : String) : Exec String :=
  if Value env envVar ≠ "" then .ret (Value env envVar)
  else .fatal ("expecting value for environment variable: " ++ envVar)

/-- `RequireFloat64`; `parseFloat` is `strconv.ParseFloat(_, 64)`, answering a
float or the message of its error. -/
def RequireFloat64 {φ : Type} (parseFloat : String → String ⊕ φ) (env : Env) (envVar : String) :
    Exec φ :=
  match RequireValue env envVar with
  | .ret s =>
    match parseFloat s with
    | .inl err => .panics err
    | .inr f => .ret f
  | .panics err => .panics err
  | .fatal msg => .fatal msg

/-- `Float64Or`. -/
def Float64Or {φ : Type} (parseFloat : String → String ⊕ φ) (env : Env) (envVar : String)
    (dflt : φ) : Exec φ :=
  if Value env envVar ≠ "" then RequireFloat64 parseFloat env (Value env envVar)
  else .ret dflt

/-- `Int64Or`; `toInt64` is the conversion `int64(_)` of a float64. -/
def Int64Or {φ : Type} (parseFloat : String → String ⊕ φ) (toInt64 : φ → Int) (env : Env)
    (envVar : String) (dflt : Int) : Exec Int :=
  if Value env envVar ≠ "" then
    match RequireFloat64 parseFloat env (Value env envVar) with
    | .ret f => .ret (toInt64 f)
    | .panics err => .panics err
    | .fatal msg => .fatal msg
  else .ret dflt

/-- The environment that sets the listed variables, the first entry of a name
counting. -/
def envOf (vars : List (String × String)) : Env := fun key => vars.lookup key

/-- A parser of decimal integers, standing in for `strconv.ParseFloat` in
closed examples. -/
def parseDecimal (s : String) : String ⊕ Int :=
  if s.data ≠ [] ∧ s.data.all Char.isDigit = true then
    .inr (Int.ofNat (s.data.foldl (fun n c => 10 * n + (c.toNat - 48)) 0))
  else .inl ("strconv.ParseFloat: parsing " ++ s ++ ": invalid syntax")

/-! ## Shared lemmas -/

/-- The four ways `updateTarget` ends: validation error, failed fetch, failed
update, success. -/
theorem updateTarget_cases (w : World σ) (s : σ) (patch : VirtualServiceMerge) (remove : Bool) :
    (∃ ve, w.validate patch.Spec.Target = some ve ∧
        updateTarget w s patch remove =
          ⟨some (.wrap "virtualservicepatch.Reconcile: " ve), s, []⟩) ∨
    (∃ e s1, w.validate patch.Spec.Target = none ∧
        updateTarget w s patch remove =
          ⟨some e, s1, [.getTarget (targetNamespaceOf patch) patch.Spec.Target.Name (.fail e)]⟩) ∨
    (∃ t e s2, w.validate patch.Spec.Target = none ∧
        updateTarget w s patch remove =
          ⟨some e, s2, [.getTarget (targetNamespaceOf patch) patch.Spec.Target.Name (.ok t),
            .updateTarget (targetNamespaceOf patch) (patchTarget w patch remove t) (some e)]⟩) ∨
    (∃ t s2, w.validate patch.Spec.Target = none ∧
        updateTarget w s patch remove =
          ⟨none, s2, [.getTarget (targetNamespaceOf patch) patch.Spec.Target.Name (.ok t),
            .updateTarget (targetNamespaceOf patch) (patchTarget w patch remove t) none]⟩) := by
  unfold updateTarget
  cases hv : w.validate patch.Spec.Target with
  | some ve => exact Or.inl ⟨ve, rfl, rfl⟩
  | none =>
    simp only
    rcases hg : w.get s (targetNamespaceOf patch) patch.Spec.Target.Name with ⟨res, s1⟩
    cases res with
    | fail e => exact Or.inr (Or.inl ⟨e, s1, trivial, rfl⟩)
    | ok t =>
      simp only
      rcases hu : w.update s1 (targetNamespaceOf patch) (patchTarget w patch remove t) with ⟨ue, s2⟩
      cases ue with
      | some e => exact Or.inr (Or.inr (Or.inl ⟨t, e, s2, trivial, rfl⟩))
      | none => exact Or.inr (Or.inr (Or.inr ⟨t, s2, trivial, rfl⟩))

/-- The three ways the sync of lines 84 to 99 ends. -/
theorem syncCurrent_cases (w : World σ) (s : σ) (patch : VirtualServiceMerge) :
    (patch.ResourceVersion = patch.Status.HandledRevision ∧
        syncCurrent w s patch = ⟨none, patch, s, []⟩) ∨
    (patch.ResourceVersion ≠ patch.Status.HandledRevision ∧
        ∃ e, (updateTarget w s patch false).err = some e ∧ w.isNotFound e = false ∧
          syncCurrent w s patch =
            ⟨some e, patch, (updateTarget w s patch false).st,
              (updateTarget w s patch false).trace⟩) ∨
    (patch.ResourceVersion ≠ patch.Status.HandledRevision ∧
        Passed w (updateTarget w s patch false) ∧
        ∃ a s2, w.updateStatus (updateTarget w s patch false).st (markHandled patch) = (a, s2) ∧
          syncCurrent w s patch =
            ⟨a.map (Err.wrap
                ("VirtualServiceMerge object (" ++ patch.Name ++ ") status update error: ")),
              markHandled patch, s2,
              passedTrace (updateTarget w s patch false) ++
                [.updateStatus (markHandled patch) a]⟩) := by
  unfold syncCurrent
  by_cases hrev : patch.ResourceVersion = patch.Status.HandledRevision
  · exact Or.inl ⟨hrev, by simp [hrev]⟩
  · right
    simp only [ne_eq, hrev, not_false_eq_true, ite_true, true_and]
    rcases hs : w.updateStatus (updateTarget w s patch false).st (markHandled patch) with ⟨a, s2⟩
    simp only [markHandled] at hs
    cases he : (updateTarget w s patch false).err with
    | none =>
      right
      refine ⟨Or.inl he, a, s2, rfl, ?_⟩
      cases a <;> simp [hs, passedTrace, he, markHandled]
    | some e =>
      cases hnf : w.isNotFound e with
      | false => exact Or.inl ⟨e, rfl, hnf, by simp [hnf]⟩
      | true =>
        right
        refine ⟨Or.inr ⟨e, he, hnf⟩, a, s2, rfl, ?_⟩
        cases a <;> simp [hs, passedTrace, he, markHandled, hnf]

/-- The two ways the deletion path of lines 69 to 83 ends. -/
theorem finalizeCurrent_cases (w : World σ) (s : σ) (patch : VirtualServiceMerge) :
    (∃ e, (updateTarget w s patch true).err = some e ∧ w.isNotFound e = false ∧
        finalizeCurrent w s patch =
          ⟨some e, patch, (updateTarget w s patch true).st,
            (updateTarget w s patch true).trace⟩) ∨
    (Passed w (updateTarget w s patch true) ∧
        ∃ a s2, w.updatePatch (updateTarget w s patch true).st (dropFinalizer patch) = (a, s2) ∧
          finalizeCurrent w s patch =
            ⟨a.map (Err.wrap ("VirtualServiceMerge object (" ++ patch.Name ++ ") update error: ")),
              dropFinalizer patch, s2,
              passedTrace (updateTarget w s patch true) ++
                [.updatePatch (dropFinalizer patch) a]⟩) := by
  unfold finalizeCurrent
  dsimp only
  rcases hs : w.updatePatch (updateTarget w s patch true).st (dropFinalizer patch) with ⟨a, s2⟩
  simp only [dropFinalizer] at hs
  cases he : (updateTarget w s patch true).err with
  | none =>
    right
    refine ⟨Or.inl he, a, s2, rfl, ?_⟩
    cases a <;> simp [hs, passedTrace, he, dropFinalizer]
  | some e =>
    cases hnf : w.isNotFound e with
    | false => exact Or.inl ⟨e, rfl, hnf, by simp [hnf]⟩
    | true =>
      right
      refine ⟨Or.inr ⟨e, he, hnf⟩, a, s2, rfl, ?_⟩
      cases a <;> simp [hs, passedTrace, he, dropFinalizer, hnf]

/-- The ways the migration of lines 37 to 60 ends: nothing to do, the routes
withdrawn from the old target (or the old target not found), or an error that
`Reconcile` returns. -/
theorem migrate_cases (w : World σ) (s : σ) (patch : VirtualServiceMerge)
    (oldpatchref : Option VirtualServiceMerge) :
    ((oldpatchref = none ∨ ∃ o, oldpatchref = some o ∧ targetChanged o patch = false) ∧
        migrate w s patch oldpatchref = ⟨none, s, []⟩) ∨
    (∃ o, oldpatchref = some o ∧ targetChanged o patch = true ∧
        ∃ e, (updateTarget w s o true).err = some e ∧ w.isNotFound e = false ∧
          migrate w s patch oldpatchref =
            ⟨some e, (updateTarget w s o true).st,
              logTargetChanged :: (updateTarget w s o true).trace⟩) ∨
    (∃ o, oldpatchref = some o ∧ targetChanged o patch = true ∧
        Passed w (updateTarget w s o true) ∧
          migrate w s patch oldpatchref =
            ⟨none, (updateTarget w s o true).st,
              logTargetChanged :: passedTrace (updateTarget w s o true)⟩) := by
  unfold migrate
  cases oldpatchref with
  | none => exact Or.inl ⟨Or.inl rfl, rfl⟩
  | some o =>
    dsimp only
    by_cases hc : targetChanged o patch = true
    · right
      simp only [hc, ite_true]
      by_cases he : (updateTarget w s o true).err = none
      · exact Or.inr ⟨o, rfl, hc, Or.inl he, by simp [passedTrace, he]⟩
      · obtain ⟨e, he⟩ := Option.ne_none_iff_exists'.mp he
        by_cases hnf : w.isNotFound e = true
        · exact Or.inr ⟨o, rfl, hc, Or.inr ⟨e, he, hnf⟩, by simp [passedTrace, he, hnf]⟩
        · exact Or.inl ⟨o, rfl, hc, e, he, by simpa using hnf, by simp [he, hnf]⟩
    · exact Or.inl ⟨Or.inr ⟨o, rfl, by simpa using hc⟩, by simp [hc]⟩

theorem Reconcile_none (w : World σ) (s : σ) (patch : VirtualServiceMerge) :
    Reconcile w s patch none = reconcileCurrent w s patch := rfl

theorem ContainsWithPrefix_iff (l : List String) (pre : String) :
    ContainsWithPrefix l pre = true ↔ ∃ f ∈ l, pre.data <+: f.data := by
  induction l with
  | nil => simp [ContainsWithPrefix]
  | cons item rest ih =>
    unfold ContainsWithPrefix
    by_cases h : pre.data.isPrefixOf item.data = true
    · simp only [h, ite_true, List.mem_cons, true_iff]
      exact ⟨item, Or.inl rfl, List.isPrefixOf_iff_prefix.mp h⟩
    · simp only [h, ite_false, ih, List.mem_cons, Bool.false_eq_true]
      constructor
      · rintro ⟨f, hf, hp⟩
        exact ⟨f, Or.inr hf, hp⟩
      · rintro ⟨f, hf | hf, hp⟩
        · exact absurd (List.isPrefixOf_iff_prefix.mpr (hf ▸ hp)) h
        · exact ⟨f, hf, hp⟩

theorem Contains_iff (l : List String) (key : String) : Contains l key = true ↔ key ∈ l := by
  induction l with
  | nil => simp [Contains]
  | cons item rest ih =>
    unfold Contains
    by_cases h : key = item
    · simp [h]
    · simp [h, ih]

theorem ContainsWithPrefix_of_Contains (l : List String) (key : String)
    (h : Contains l key = true) : ContainsWithPrefix l key = true :=
  (ContainsWithPrefix_iff l key).mpr ⟨key, (Contains_iff l key).mp h, List.prefix_refl _⟩

/-- A successful `updateTarget` fetched the target, changed its routes and
updated it. -/
theorem updateTarget_ok_trace (w : World σ) (s : σ) (patch : VirtualServiceMerge)
    (remove : Bool) (h : (updateTarget w s patch remove).err = none) :
    ∃ t, (updateTarget w s patch remove).trace =
      [.getTarget (targetNamespaceOf patch) patch.Spec.Target.Name (.ok t),
       .updateTarget (targetNamespaceOf patch) (patchTarget w patch remove t) none] := by
  rcases updateTarget_cases w s patch remove with
    ⟨ve, _, hr⟩ | ⟨e, s1, _, hr⟩ | ⟨t, e, s2, _, hr⟩ | ⟨t, s2, _, hr⟩
  · rw [hr] at h; simp at h
  · rw [hr] at h; simp at h
  · rw [hr] at h; simp at h
  · exact ⟨t, by rw [hr]⟩

/-- The trace of `updateTarget` holds no update of the patch or of its status
and no log line, and a failed update of the target in it is the error
returned. -/
theorem updateTarget_trace_mem (w : World σ) (s : σ) (patch : VirtualServiceMerge)
    (remove : Bool) (ev : Event) (h : ev ∈ (updateTarget w s patch remove).trace) :
    (∃ res, ev = .getTarget (targetNamespaceOf patch) patch.Spec.Target.Name res) ∨
    (∃ t a, ev = .updateTarget (targetNamespaceOf patch) (patchTarget w patch remove t) a ∧
      (updateTarget w s patch remove).err = a) := by
  rcases updateTarget_cases w s patch remove with
    ⟨ve, _, hr⟩ | ⟨e, s1, _, hr⟩ | ⟨t, e, s2, _, hr⟩ | ⟨t, s2, _, hr⟩
  · rw [hr] at h; simp at h
  · rw [hr] at h ⊢
    simp only [List.mem_singleton] at h
    exact Or.inl ⟨_, h⟩
  · rw [hr] at h ⊢
    simp only [List.mem_cons, List.mem_singleton, List.mem_nil_iff, or_false] at h
    rcases h with h | h
    · exact Or.inl ⟨_, h⟩
    · exact Or.inr ⟨t, some e, h, rfl⟩
  · rw [hr] at h ⊢
    simp only [List.mem_cons, List.mem_singleton, List.mem_nil_iff, or_false] at h
    rcases h with h | h
    · exact Or.inl ⟨_, h⟩
    · exact Or.inr ⟨t, none, h, rfl⟩

/-- The events let pass after a call of `updateTarget` are those of the call
and possibly the not-found log line. -/
theorem passedTrace_mem (r : Step σ) (ev : Event) (h : ev ∈ passedTrace r) :
    ev ∈ r.trace ∨ ev = logNotFound := by
  unfold passedTrace at h
  split at h
  · exact Or.inl h
  · simpa using h

/-- The three branches of lines 62 to 99. -/
theorem reconcileCurrent_cases (w : World σ) (s : σ) (patch : VirtualServiceMerge) :
    (IsZero patch.DeletionTimestamp = true ∧
        ContainsWithPrefix patch.Finalizers finalizerName = false ∧
        reconcileCurrent w s patch =
          ⟨(w.updatePatch s { patch with Finalizers := patch.Finalizers ++ [finalizerName] }).1,
            { patch with Finalizers := patch.Finalizers ++ [finalizerName] },
            (w.updatePatch s { patch with Finalizers := patch.Finalizers ++ [finalizerName] }).2,
            [logAddFinalizer,
             .updatePatch { patch with Finalizers := patch.Finalizers ++ [finalizerName] }
               (w.updatePatch s
                 { patch with Finalizers := patch.Finalizers ++ [finalizerName] }).1]⟩) ∨
    (IsZero patch.DeletionTimestamp = false ∧ Contains patch.Finalizers finalizerName = true ∧
        reconcileCurrent w s patch = finalizeCurrent w s patch) ∨
    ((IsZero patch.DeletionTimestamp = true ∧
          ContainsWithPrefix patch.Finalizers finalizerName = true ∨
        IsZero patch.DeletionTimestamp = false ∧
          Contains patch.Finalizers finalizerName = false) ∧
        reconcileCurrent w s patch = syncCurrent w s patch) := by
  unfold reconcileCurrent
  cases hz : IsZero patch.DeletionTimestamp with
  | true =>
    cases hp : ContainsWithPrefix patch.Finalizers finalizerName with
    | false => exact Or.inl ⟨rfl, rfl, by simp⟩
    | true => exact Or.inr (Or.inr ⟨Or.inl ⟨rfl, rfl⟩, by simp⟩)
  | false =>
    cases hc : Contains patch.Finalizers finalizerName with
    | false => exact Or.inr (Or.inr ⟨Or.inr ⟨rfl, rfl⟩, by simp⟩)
    | true => exact Or.inr (Or.inl ⟨rfl, rfl, by simp⟩)

/-- `Reconcile` returns the error of the migration, or goes on with lines 62 to
99 from the store state the migration left. -/
theorem Reconcile_cases (w : World σ) (s : σ) (patch : VirtualServiceMerge)
    (oldpatchref : Option VirtualServiceMerge) :
    (∃ e, (migrate w s patch oldpatchref).err = some e ∧
        Reconcile w s patch oldpatchref =
          ⟨some e, patch, (migrate w s patch oldpatchref).st,
            (migrate w s patch oldpatchref).trace⟩) ∨
    ((migrate w s patch oldpatchref).err = none ∧
        Reconcile w s patch oldpatchref =
          (reconcileCurrent w (migrate w s patch oldpatchref).st patch).after
            (migrate w s patch oldpatchref).trace) := by
  unfold Reconcile
  dsimp only
  cases hm : (migrate w s patch oldpatchref).err with
  | some e => exact Or.inl ⟨e, rfl, rfl⟩
  | none => exact Or.inr ⟨rfl, rfl⟩

/-- The trace of the migration holds no update of the patch or of its status,
and when the migration lets the run go on, every failed update of the old
target in it is classified as not found. -/
theorem migrate_trace_mem (w : World σ) (s : σ) (patch : VirtualServiceMerge)
    (oldpatchref : Option VirtualServiceMerge) (ev : Event)
    (h : ev ∈ (migrate w s patch oldpatchref).trace) :
    (∃ msg, ev = .log msg) ∨ (∃ ns name res, ev = .getTarget ns name res) ∨
    (∃ ns t a, ev = .updateTarget ns t a ∧
      (∀ e, a = some e → (migrate w s patch oldpatchref).err = none →
        w.isNotFound e = true)) := by
  rcases migrate_cases w s patch oldpatchref with
    ⟨_, hm⟩ | ⟨o, _, _, e, he, hnf, hm⟩ | ⟨o, _, _, hp, hm⟩
  · rw [hm] at h; simp at h
  · rw [hm] at h ⊢
    simp only [List.mem_cons] at h
    rcases h with h | h
    · exact Or.inl ⟨_, h⟩
    · rcases updateTarget_trace_mem w s o true ev h with ⟨res, hev⟩ | ⟨t, a, hev, _⟩
      · exact Or.inr (Or.inl ⟨_, _, _, hev⟩)
      · exact Or.inr (Or.inr ⟨_, _, _, hev, fun _ _ hn => by simp at hn⟩)
  · rw [hm] at h ⊢
    simp only [List.mem_cons] at h
    rcases h with h | h
    · exact Or.inl ⟨_, h⟩
    · rcases passedTrace_mem _ ev h with h | h
      · rcases updateTarget_trace_mem w s o true ev h with ⟨res, hev⟩ | ⟨t, a, hev, ha⟩
        · exact Or.inr (Or.inl ⟨_, _, _, hev⟩)
        · refine Or.inr (Or.inr ⟨_, _, _, hev, fun e hae _ => ?_⟩)
          rcases hp with hp | ⟨e', he', hnf⟩
          · rw [hp] at ha; rw [← ha] at hae; simp at hae
          · rw [he'] at ha; rw [← ha] at hae
            simp only [Option.some.injEq] at hae
            rw [← hae]; exact hnf
      · exact Or.inl ⟨_, h⟩

theorem Remove_eq_erase (key : String) (l : List String) : Remove key l = l.erase key := by
  induction l with
  | nil => rfl
  | cons item rest ih =>
    unfold Remove
    by_cases h : key = item
    · simp [h]
    · have h2 : (item == key) = false := by simpa using fun h3 => h h3.symm
      simp [h, List.erase_cons, h2, ih]

/-- When the key occurs once, what `Remove` returns no longer holds it. -/
theorem Contains_Remove_of_count_one (key : String) (l : List String)
    (h : l.count key = 1) : Contains (Remove key l) key = false := by
  rw [Bool.eq_false_iff, Ne, Contains_iff, Remove_eq_erase]
  intro hmem
  have hc : (l.erase key).count key = 0 := by
    rw [List.count_erase_self, h]
  exact (List.count_pos_iff.mpr hmem).ne' hc

theorem targetChanged_iff (oldpatch patch : VirtualServiceMerge) :
    targetChanged oldpatch patch = true ↔ resolvedTarget oldpatch ≠ resolvedTarget patch := by
  simp only [targetChanged, resolvedTarget, bne_iff_ne, Bool.or_eq_true, ne_eq, Prod.mk.injEq,
    not_and_or]

/-- After a call of `updateTarget` that `Reconcile` lets pass, the events let
pass hold no update of the patch or of its status, and every failed update of
the target among them is classified as not found. -/
theorem passedTrace_updateTarget_mem (w : World σ) (s : σ) (patch : VirtualServiceMerge)
    (remove : Bool) (hp : Passed w (updateTarget w s patch remove)) (ev : Event)
    (h : ev ∈ passedTrace (updateTarget w s patch remove)) :
    (∃ msg, ev = .log msg) ∨ (∃ ns name res, ev = .getTarget ns name res) ∨
    (∃ ns t a, ev = .updateTarget ns t a ∧ ∀ e, a = some e → w.isNotFound e = true) := by
  rcases passedTrace_mem _ ev h with h | h
  · rcases updateTarget_trace_mem w s patch remove ev h with ⟨res, hev⟩ | ⟨t, a, hev, ha⟩
    · exact Or.inr (Or.inl ⟨_, _, _, hev⟩)
    · refine Or.inr (Or.inr ⟨_, _, _, hev, fun e hae => ?_⟩)
      rcases hp with hp | ⟨e', he', hnf⟩
      · rw [hp] at ha; rw [← ha] at hae; simp at hae
      · rw [he'] at ha; rw [← ha] at hae
        simp only [Option.some.injEq] at hae
        rw [← hae]; exact hnf
  · exact Or.inl ⟨_, h⟩

/-- The migration log line is not among the events of lines 62 to 99. -/
theorem logTargetChanged_not_mem_reconcileCurrent (w : World σ) (s : σ)
    (patch : VirtualServiceMerge) : logTargetChanged ∉ (reconcileCurrent w s patch).trace := by
  have hU : ∀ remove, logTargetChanged ∉ (updateTarget w s patch remove).trace := by
    intro remove hmem
    rcases updateTarget_trace_mem w s patch remove _ hmem with ⟨_, h⟩ | ⟨_, _, h, _⟩ <;>
      simp [logTargetChanged] at h
  have hP : ∀ remove, logTargetChanged ∉ passedTrace (updateTarget w s patch remove) := by
    intro remove hmem
    rcases passedTrace_mem _ _ hmem with h | h
    · exact hU remove h
    · revert h; decide
  intro hmem
  rcases reconcileCurrent_cases w s patch with ⟨_, _, hc⟩ | ⟨_, _, hc⟩ | ⟨_, hc⟩
  · rw [hc] at hmem
    simp only [List.mem_cons, List.mem_singleton, List.mem_nil_iff, or_false] at hmem
    rcases hmem with h | h
    · revert h; decide
    · simp [logTargetChanged] at h
  · rw [hc] at hmem
    rcases finalizeCurrent_cases w s patch with ⟨e, _, _, hf⟩ | ⟨_, a, s2, _, hf⟩
    · rw [hf] at hmem; exact hU true hmem
    · rw [hf] at hmem
      rcases List.mem_append.mp hmem with h | h
      · exact hP true h
      · simp [logTargetChanged] at h
  · rw [hc] at hmem
    rcases syncCurrent_cases w s patch with ⟨_, hs⟩ | ⟨_, e, _, _, hs⟩ | ⟨_, _, a, s2, _, hs⟩
    · rw [hs] at hmem; simp at hmem
    · rw [hs] at hmem; exact hU false hmem
    · rw [hs] at hmem
      rcases List.mem_append.mp hmem with h | h
      · exact hP false h
      · simp [logTargetChanged] at h

/-- When the key is absent `Remove` returns the haystack itself. -/
theorem Remove_of_not_Contains (key : String) (l : List String)
    (h : Contains l key = false) : Remove key l = l := by
  induction l with
  | nil => rfl
  | cons item rest ih =>
    unfold Contains at h
    unfold Remove
    by_cases hk : key = item
    · simp [hk] at h
    · simp only [hk, ite_false] at h ⊢
      rw [ih h]

/-- `Int64Or` returns the default when the named variable is unset or blank. -/
theorem Int64Or_default {φ : Type} (parseFloat : String → String ⊕ φ) (toInt64 : φ → Int)
    (env : Env) (envVar : String) (dflt : Int) (h : Value env envVar = "") :
    Int64Or parseFloat toInt64 env envVar dflt = .ret dflt := by
  simp [Int64Or, h]

/-- When the named variable holds a value, `Int64Or` hands that value to
`RequireFloat64` as the name of a variable: the number returned is parsed from
the variable the value names, and the process ends when that one is unset or
blank. -/
theorem Int64Or_of_value {φ : Type} (parseFloat : String → String ⊕ φ) (toInt64 : φ → Int)
    (env : Env) (envVar : String) (dflt : Int) (h : Value env envVar ≠ "") :
    Int64Or parseFloat toInt64 env envVar dflt =
      if Value env (Value env envVar) = "" then
        .fatal ("expecting value for environment variable: " ++ Value env envVar)
      else
        match parseFloat (Value env (Value env envVar)) with
        | .inl err => .panics err
        | .inr f => .ret (toInt64 f) := by
  unfold Int64Or RequireFloat64 RequireValue
  by_cases h2 : Value env (Value env envVar) = ""
  · simp [h, h2]
  · simp only [ne_eq, h, not_false_eq_true, ite_true, h2, ite_false]
    cases parseFloat (Value env (Value env envVar)) <;> rfl

/-! ## The claims -/

/-- C1, evaluated on the code: a patch whose deletion timestamp is set, whose
finalizer list does not contain the marker and whose resource version differs
from its handled revision is not left alone.  `Reconcile` falls through to the
sync of line 84: it fetches the target, merges the routes of the patch into it,
updates it, advances the handled revision and updates the status. -/
theorem reconcile_deleted_without_marker_syncs :
    IsZero (examplePatch (some 5) []).DeletionTimestamp = false ∧
    Contains (examplePatch (some 5) []).Finalizers finalizerName = false ∧
    (Reconcile (fixedWorld (.ok svcA) none none none) () (examplePatch (some 5) []) none).err
      = none ∧
    (Reconcile (fixedWorld (.ok svcA) none none none) () (examplePatch (some 5) []) none).patch
      = markHandled (examplePatch (some 5) []) ∧
    (Reconcile (fixedWorld (.ok svcA) none none none) () (examplePatch (some 5) []) none).trace
      = [.getTarget "default" "svc-a" (.ok svcA),
         .updateTarget "default" { svcA with Http := ["other", "r1", "r2"] } none,
         .updateStatus (markHandled (examplePatch (some 5) [])) none] := by
  decide

/-- C2 as stated fails: on a patch without deletion timestamp and without the
marker, `Reconcile` adds the marker and returns nil while the handled revision
still differs from the resource version. -/
theorem reconcile_nil_without_convergence :
    (Reconcile (fixedWorld (.ok svcA) none none none) () (examplePatch none []) none).err = none ∧
    (Reconcile (fixedWorld (.ok svcA) none none none) () (examplePatch none []) none).patch.Status.HandledRevision
      ≠ (Reconcile (fixedWorld (.ok svcA) none none none) () (examplePatch none []) none).patch.ResourceVersion := by
  decide

/-- C2, amended: for every patch that is not being deleted and carries a
finalizer starting with the marker, for every previous snapshot and every
behaviour of the store, if `Reconcile` returns nil then afterwards the handled
revision of the patch equals its resource version. -/
theorem reconcile_nil_converges (w : World σ) (s : σ) (patch : VirtualServiceMerge)
    (oldpatchref : Option VirtualServiceMerge)
    (hdel : IsZero patch.DeletionTimestamp = true)
    (hfin : ContainsWithPrefix patch.Finalizers finalizerName = true)
    (hnil : (Reconcile w s patch oldpatchref).err = none) :
    (Reconcile w s patch oldpatchref).patch.Status.HandledRevision =
      (Reconcile w s patch oldpatchref).patch.ResourceVersion := by
  unfold Reconcile at hnil ⊢
  dsimp only at hnil ⊢
  cases hm : (migrate w s patch oldpatchref).err with
  | some e => simp [hm] at hnil
  | none =>
    simp only [hm, Outcome.after, reconcileCurrent, hdel, hfin, ite_true, Bool.not_true,
      Bool.false_eq_true, ite_false] at hnil ⊢
    rcases syncCurrent_cases w (migrate w s patch oldpatchref).st patch with
      ⟨hrev, h⟩ | ⟨_, e, _, _, h⟩ | ⟨_, _, a, s2, _, h⟩
    · rw [h]; exact hrev.symm
    · rw [h] at hnil; simp at hnil
    · rw [h]; rfl

theorem reconcile_nil_converges_witness :
    (Reconcile (fixedWorld (.ok svcA) none none none) ()
        (examplePatch none [finalizerName]) none).patch.Status.HandledRevision =
      (Reconcile (fixedWorld (.ok svcA) none none none) ()
        (examplePatch none [finalizerName]) none).patch.ResourceVersion :=
  reconcile_nil_converges (fixedWorld (.ok svcA) none none none) ()
    (examplePatch none [finalizerName]) none (by decide) (by decide) (by decide)

/-- C6: for every patch without deletion timestamp whose finalizer list has no
entry starting with the marker, `Reconcile` without previous snapshot appends
the marker to the finalizer list and changes nothing else of the patch (the
handled revision in particular), issues one update of that patch and no other
store call, and returns what that update returns, nil when it succeeds. -/
theorem reconcile_adds_marker (w : World σ) (s : σ) (patch : VirtualServiceMerge)
    (hdel : IsZero patch.DeletionTimestamp = true)
    (hfin : ∀ f ∈ patch.Finalizers, ¬ finalizerName.data <+: f.data) :
    (Reconcile w s patch none).patch =
        { patch with Finalizers := patch.Finalizers ++ [finalizerName] } ∧
    (Reconcile w s patch none).patch.Status.HandledRevision = patch.Status.HandledRevision ∧
    (Reconcile w s patch none).trace =
        [logAddFinalizer,
         .updatePatch { patch with Finalizers := patch.Finalizers ++ [finalizerName] }
           (w.updatePatch s { patch with Finalizers := patch.Finalizers ++ [finalizerName] }).1] ∧
    (Reconcile w s patch none).err =
        (w.updatePatch s { patch with Finalizers := patch.Finalizers ++ [finalizerName] }).1 ∧
    ((w.updatePatch s { patch with Finalizers := patch.Finalizers ++ [finalizerName] }).1 = none →
        (Reconcile w s patch none).err = none) := by
  have hno : ContainsWithPrefix patch.Finalizers finalizerName = false := by
    rw [Bool.eq_false_iff, Ne, ContainsWithPrefix_iff]
    rintro ⟨f, hf, hp⟩
    exact hfin f hf hp
  rw [Reconcile_none]
  refine ⟨?_, ?_, ?_, ?_, ?_⟩ <;> simp [reconcileCurrent, hdel, hno]

theorem reconcile_adds_marker_witness :
    (Reconcile (fixedWorld (.ok svcA) none none none) () (examplePatch none ["other/finalizer"])
        none).trace =
      [logAddFinalizer,
       .updatePatch (examplePatch none ["other/finalizer", finalizerName]) none] :=
  (reconcile_adds_marker (fixedWorld (.ok svcA) none none none) ()
    (examplePatch none ["other/finalizer"]) (by decide) (by decide)).2.2.1

/-- C3 as stated fails: with the marker present, revision 2 against handled
revision 1 and a store that reports the target as not found, `Reconcile`
advances the handled revision to 2 although the target was neither fetched
successfully nor written. -/
theorem handled_revision_advanced_without_write :
    (Reconcile (fixedWorld (.fail notFoundErr) none none none) ()
        (examplePatch none [finalizerName]) none).patch.Status.HandledRevision = "2" ∧
    (examplePatch none [finalizerName]).Status.HandledRevision = "1" ∧
    (Reconcile (fixedWorld (.fail notFoundErr) none none none) ()
        (examplePatch none [finalizerName]) none).trace =
      [.getTarget "default" "svc-a" (.fail notFoundErr), logNotFound,
       .updateStatus (markHandled (examplePatch none [finalizerName])) none] := by
  decide

/-- C3, amended: in every run of `Reconcile` that changes the handled revision,
the migration did not fail, the patch leaves the run with its handled revision
set to its resource version, and `updateTarget` was called on the patch with
remove=false, right before the status update, and either succeeded (the target
was fetched, the routes of the patch were merged into it and its update
succeeded) or returned an error classified as not found. -/
theorem handled_revision_advance (w : World σ) (s : σ) (patch : VirtualServiceMerge)
    (oldpatchref : Option VirtualServiceMerge)
    (hadv : (Reconcile w s patch oldpatchref).patch.Status.HandledRevision ≠
      patch.Status.HandledRevision) :
    (Reconcile w s patch oldpatchref).patch = markHandled patch ∧
    (migrate w s patch oldpatchref).err = none ∧
    Passed w (updateTarget w (migrate w s patch oldpatchref).st patch false) ∧
    ((updateTarget w (migrate w s patch oldpatchref).st patch false).err = none →
      ∃ t, (updateTarget w (migrate w s patch oldpatchref).st patch false).trace =
        [.getTarget (targetNamespaceOf patch) patch.Spec.Target.Name (.ok t),
         .updateTarget (targetNamespaceOf patch) (patchTarget w patch false t) none]) ∧
    ∃ a, (Reconcile w s patch oldpatchref).trace =
      (migrate w s patch oldpatchref).trace ++
        (passedTrace (updateTarget w (migrate w s patch oldpatchref).st patch false) ++
          [.updateStatus (markHandled patch) a]) := by
  rcases Reconcile_cases w s patch oldpatchref with ⟨e, _, hR⟩ | ⟨hm, hR⟩
  · rw [hR] at hadv; exact absurd rfl hadv
  · rw [hR] at hadv ⊢
    rcases reconcileCurrent_cases w (migrate w s patch oldpatchref).st patch with
      ⟨_, _, hc⟩ | ⟨_, _, hc⟩ | ⟨_, hc⟩
    · rw [hc] at hadv; exact absurd rfl hadv
    · rw [hc] at hadv
      rcases finalizeCurrent_cases w (migrate w s patch oldpatchref).st patch with
        ⟨e, _, _, hf⟩ | ⟨_, a, s2, _, hf⟩
      · rw [hf] at hadv; exact absurd rfl hadv
      · rw [hf] at hadv; exact absurd rfl hadv
    · rw [hc] at hadv ⊢
      rcases syncCurrent_cases w (migrate w s patch oldpatchref).st patch with
        ⟨_, hs⟩ | ⟨_, e, _, _, hs⟩ | ⟨_, hp, a, s2, _, hs⟩
      · rw [hs] at hadv; exact absurd rfl hadv
      · rw [hs] at hadv; exact absurd rfl hadv
      · rw [hs]
        exact ⟨rfl, hm, hp, updateTarget_ok_trace w _ patch false, a, rfl⟩

theorem handled_revision_advance_witness :
    (Reconcile (fixedWorld (.ok svcA) none none none) ()
        (examplePatch none [finalizerName]) none).patch =
      markHandled (examplePatch none [finalizerName]) :=
  (handled_revision_advance (fixedWorld (.ok svcA) none none none) ()
    (examplePatch none [finalizerName]) none (by decide)).1

/-- C4: for every patch with deletion requested and the marker present, and for
every previous snapshot, every update of the patch that `Reconcile` issues
carries the finalizer list that `Remove` returns for the marker, and is issued
only when the migration did not fail and the withdrawal from the current target
succeeded (target fetched, routes removed, target update succeeded) or ended in
an error classified as not found; if the withdrawal fails with any other error,
`Reconcile` returns that error, issues no update of the patch and leaves the
patch as it was, the marker still in its finalizer list. -/
theorem finalizer_removed_only_after_cleanup (w : World σ) (s : σ)
    (patch : VirtualServiceMerge) (oldpatchref : Option VirtualServiceMerge)
    (hdel : IsZero patch.DeletionTimestamp = false)
    (hfin : Contains patch.Finalizers finalizerName = true) :
    (∀ p a, Event.updatePatch p a ∈ (Reconcile w s patch oldpatchref).trace →
      p = dropFinalizer patch ∧
      (migrate w s patch oldpatchref).err = none ∧
      ((∃ t, (updateTarget w (migrate w s patch oldpatchref).st patch true).err = none ∧
          (updateTarget w (migrate w s patch oldpatchref).st patch true).trace =
            [.getTarget (targetNamespaceOf patch) patch.Spec.Target.Name (.ok t),
             .updateTarget (targetNamespaceOf patch) (patchTarget w patch true t) none]) ∨
        (∃ e, (updateTarget w (migrate w s patch oldpatchref).st patch true).err = some e ∧
          w.isNotFound e = true)) ∧
      (Reconcile w s patch oldpatchref).trace =
        (migrate w s patch oldpatchref).trace ++
          (passedTrace (updateTarget w (migrate w s patch oldpatchref).st patch true) ++
            [.updatePatch p a])) ∧
    (∀ e, (migrate w s patch oldpatchref).err = none →
      (updateTarget w (migrate w s patch oldpatchref).st patch true).err = some e →
      w.isNotFound e = false →
      (Reconcile w s patch oldpatchref).err = some e ∧
      (∀ p a, Event.updatePatch p a ∉ (Reconcile w s patch oldpatchref).trace) ∧
      (Reconcile w s patch oldpatchref).patch = patch ∧
      Contains (Reconcile w s patch oldpatchref).patch.Finalizers finalizerName = true) := by
  have hnoM : ∀ p a, Event.updatePatch p a ∉ (migrate w s patch oldpatchref).trace := by
    intro p a hmem
    rcases migrate_trace_mem w s patch oldpatchref _ hmem with
      ⟨_, h⟩ | ⟨_, _, _, h⟩ | ⟨_, _, _, h, _⟩ <;> simp at h
  have hnoU : ∀ p a,
      Event.updatePatch p a ∉ (updateTarget w (migrate w s patch oldpatchref).st patch true).trace := by
    intro p a hmem
    rcases updateTarget_trace_mem w _ patch true _ hmem with ⟨_, h⟩ | ⟨_, _, h, _⟩ <;> simp at h
  have hnoP : ∀ p a, Event.updatePatch p a ∉
      passedTrace (updateTarget w (migrate w s patch oldpatchref).st patch true) := by
    intro p a hmem
    rcases passedTrace_mem _ _ hmem with h | h
    · exact hnoU p a h
    · simp [logNotFound] at h
  rcases Reconcile_cases w s patch oldpatchref with ⟨e, hme, hR⟩ | ⟨hm, hR⟩
  · rw [hR]
    refine ⟨fun p a hmem => absurd hmem (hnoM p a), fun e' hm' => ?_⟩
    rw [hme] at hm'; simp at hm'
  · rcases reconcileCurrent_cases w (migrate w s patch oldpatchref).st patch with
      ⟨hz, _, _⟩ | ⟨_, _, hc⟩ | ⟨hz | ⟨_, hz⟩, _⟩
    · rw [hdel] at hz; simp at hz
    · rw [hR, hc]
      rcases finalizeCurrent_cases w (migrate w s patch oldpatchref).st patch with
        ⟨e, he, hnf, hf⟩ | ⟨hp, a, s2, _, hf⟩
      · rw [hf]
        simp only [Outcome.after]
        constructor
        · intro p a hmem
          rcases List.mem_append.mp hmem with h | h
          · exact absurd h (hnoM p a)
          · exact absurd h (hnoU p a)
        · intro e' _ he' _
          rw [he] at he'
          simp only [Option.some.injEq] at he'
          refine ⟨by rw [he'], fun p a hmem => ?_, trivial, hfin⟩
          rcases List.mem_append.mp hmem with h | h
          · exact absurd h (hnoM p a)
          · exact absurd h (hnoU p a)
      · rw [hf]
        simp only [Outcome.after]
        constructor
        · intro p a' hmem
          have hpa : Event.updatePatch p a' = Event.updatePatch (dropFinalizer patch) a := by
            rcases List.mem_append.mp hmem with h | h
            · exact absurd h (hnoM p a')
            · rcases List.mem_append.mp h with h | h
              · exact absurd h (hnoP p a')
              · simpa using h
          refine ⟨by injection hpa, hm, ?_, by rw [hpa]⟩
          rcases hp with hp | hp
          · obtain ⟨t, ht⟩ := updateTarget_ok_trace w _ patch true hp
            exact Or.inl ⟨t, hp, ht⟩
          · exact Or.inr hp
        · intro e' _ he' hnf'
          rcases hp with hp | ⟨e2, he2, hnf2⟩
          · rw [hp] at he'; simp at he'
          · rw [he2] at he'
            simp only [Option.some.injEq] at he'
            rw [he', hnf'] at hnf2; simp at hnf2
    · rw [hdel] at hz; simp at hz
    · rw [hfin] at hz; simp at hz

theorem finalizer_removed_only_after_cleanup_witness :
    (Reconcile (fixedWorld (.ok svcA) (some conflictErr) none none) ()
        (examplePatch (some 5) [finalizerName]) none).err = some conflictErr ∧
    Contains (Reconcile (fixedWorld (.ok svcA) (some conflictErr) none none) ()
        (examplePatch (some 5) [finalizerName]) none).patch.Finalizers finalizerName = true :=
  have h := (finalizer_removed_only_after_cleanup
    (fixedWorld (.ok svcA) (some conflictErr) none none) ()
    (examplePatch (some 5) [finalizerName]) none (by decide) (by decide)).2
      conflictErr (by decide) (by decide) (by decide)
  ⟨h.1, h.2.2.2⟩

/-- C5, evaluated on the code: when the finalizer list holds the marker twice
and the target is reported as not found, `Reconcile` returns nil, but the patch
it persists on the deletion path still carries the marker, `Remove` having
returned at the first occurrence. -/
theorem not_found_deletion_keeps_second_marker :
    IsZero (examplePatch (some 5) [finalizerName, finalizerName]).DeletionTimestamp = false ∧
    Contains (examplePatch (some 5) [finalizerName, finalizerName]).Finalizers finalizerName
      = true ∧
    (Reconcile (fixedWorld (.fail notFoundErr) none none none) ()
        (examplePatch (some 5) [finalizerName, finalizerName]) none).err = none ∧
    (Reconcile (fixedWorld (.fail notFoundErr) none none none) ()
        (examplePatch (some 5) [finalizerName, finalizerName]) none).trace =
      [.getTarget "default" "svc-a" (.fail notFoundErr), logNotFound,
       .updatePatch (examplePatch (some 5) [finalizerName]) none] ∧
    Contains (examplePatch (some 5) [finalizerName]).Finalizers finalizerName = true := by
  decide

/-- What the code does when the target is not found: for every patch, without
previous snapshot, if the fetch of the target of the patch reports an error
classified as not found and no update of the patch or of its status fails,
`Reconcile` returns nil; on the deletion path (deletion requested, marker
present) the run persists the patch with the finalizer list `Remove` returns,
and that list is free of the marker when the marker occurred once. -/
theorem target_not_found_not_fatal (w : World σ) (s : σ) (patch : VirtualServiceMerge)
    (hnf : ∃ ns name e, Event.getTarget ns name (.fail e) ∈ (Reconcile w s patch none).trace ∧
      w.isNotFound e = true)
    (hpw : ∀ p e, Event.updatePatch p (some e) ∉ (Reconcile w s patch none).trace)
    (hsw : ∀ p e, Event.updateStatus p (some e) ∉ (Reconcile w s patch none).trace) :
    (Reconcile w s patch none).err = none ∧
    (IsZero patch.DeletionTimestamp = false → Contains patch.Finalizers finalizerName = true →
      (Reconcile w s patch none).patch = dropFinalizer patch ∧
      Event.updatePatch (dropFinalizer patch) none ∈ (Reconcile w s patch none).trace ∧
      (patch.Finalizers.count finalizerName = 1 →
        Contains (Reconcile w s patch none).patch.Finalizers finalizerName = false)) := by
  obtain ⟨ns, name, e, hmem, hnfe⟩ := hnf
  rw [Reconcile_none] at hmem hpw hsw ⊢
  -- a failed fetch in the trace of `updateTarget` is the error it returns
  have hfetch : ∀ remove, Event.getTarget ns name (.fail e) ∈ (updateTarget w s patch remove).trace →
      (updateTarget w s patch remove).err = some e := by
    intro remove h
    rcases updateTarget_cases w s patch remove with
      ⟨ve, _, hr⟩ | ⟨e', s1, _, hr⟩ | ⟨t, e', s2, _, hr⟩ | ⟨t, s2, _, hr⟩
    · rw [hr] at h; simp at h
    · rw [hr] at h ⊢
      simp only [List.mem_singleton, Event.getTarget.injEq, GetResult.fail.injEq] at h
      rw [h.2.2]
    · rw [hr] at h; simp at h
    · rw [hr] at h; simp at h
  have hpassed : ∀ remove, Event.getTarget ns name (.fail e) ∈
      passedTrace (updateTarget w s patch remove) →
      (updateTarget w s patch remove).err = some e := by
    intro remove h
    rcases passedTrace_mem _ _ h with h | h
    · exact hfetch remove h
    · simp [logNotFound] at h
  rcases reconcileCurrent_cases w s patch with ⟨_, _, hc⟩ | ⟨hz, hfin, hc⟩ | ⟨hz, hc⟩
  · rw [hc] at hmem; simp [logAddFinalizer] at hmem
  · rw [hc] at hmem hpw ⊢
    rcases finalizeCurrent_cases w s patch with ⟨e', he', hnf', hf⟩ | ⟨_, a, s2, _, hf⟩
    · rw [hf] at hmem
      have := hfetch true hmem
      rw [he'] at this
      simp only [Option.some.injEq] at this
      rw [this, hnfe] at hnf'; simp at hnf'
    · rw [hf] at hpw ⊢
      have ha : a = none := by
        cases a with
        | none => rfl
        | some e' => exact absurd (by simp) (hpw (dropFinalizer patch) e')
      subst ha
      refine ⟨rfl, fun _ _ => ⟨rfl, by simp, fun hcount => ?_⟩⟩
      exact Contains_Remove_of_count_one finalizerName patch.Finalizers hcount
  · rw [hc] at hmem hsw ⊢
    have hcontra : IsZero patch.DeletionTimestamp = false →
        Contains patch.Finalizers finalizerName = true → False := by
      intro h1 h2
      rcases hz with ⟨h, _⟩ | ⟨_, h⟩
      · rw [h1] at h; simp at h
      · rw [h2] at h; simp at h
    rcases syncCurrent_cases w s patch with ⟨_, hs⟩ | ⟨_, e', he', hnf', hs⟩ | ⟨_, _, a, s2, _, hs⟩
    · rw [hs] at hmem; simp at hmem
    · rw [hs] at hmem
      have := hfetch false hmem
      rw [he'] at this
      simp only [Option.some.injEq] at this
      rw [this, hnfe] at hnf'; simp at hnf'
    · rw [hs] at hsw ⊢
      have ha : a = none := by
        cases a with
        | none => rfl
        | some e' => exact absurd (by simp) (hsw (markHandled patch) e')
      subst ha
      exact ⟨rfl, fun h1 h2 => absurd (hcontra h1 h2) id⟩

theorem target_not_found_not_fatal_witness :
    (Reconcile (fixedWorld (.fail notFoundErr) none none none) ()
        (examplePatch (some 5) [finalizerName]) none).err = none ∧
    Contains (Reconcile (fixedWorld (.fail notFoundErr) none none none) ()
        (examplePatch (some 5) [finalizerName]) none).patch.Finalizers finalizerName = false :=
  have h := target_not_found_not_fatal (fixedWorld (.fail notFoundErr) none none none) ()
    (examplePatch (some 5) [finalizerName])
    ⟨"default", "svc-a", notFoundErr, by decide, by decide⟩
    (fun p e hmem => by
      rw [show (Reconcile (fixedWorld (.fail notFoundErr) none none none) ()
          (examplePatch (some 5) [finalizerName]) none).trace =
        [.getTarget "default" "svc-a" (.fail notFoundErr), logNotFound,
         .updatePatch (examplePatch (some 5) []) none] from by decide] at hmem
      simp [logNotFound] at hmem)
    (fun p e hmem => by
      rw [show (Reconcile (fixedWorld (.fail notFoundErr) none none none) ()
          (examplePatch (some 5) [finalizerName]) none).trace =
        [.getTarget "default" "svc-a" (.fail notFoundErr), logNotFound,
         .updatePatch (examplePatch (some 5) []) none] from by decide] at hmem
      simp [logNotFound] at hmem)
  ⟨h.1, (h.2 (by decide) (by decide)).2.2 (by decide)⟩

/-- C7 as stated fails in one direction: with the marker present and revision
2 against handled revision 1, but a target reference that does not pass
validation, `Reconcile` fetches nothing; `updateTarget` returns the validation
error before its fetch. -/
theorem revisions_differ_without_fetch :
    IsZero invalidTargetPatch.DeletionTimestamp = true ∧
    Contains invalidTargetPatch.Finalizers finalizerName = true ∧
    invalidTargetPatch.ResourceVersion ≠ invalidTargetPatch.Status.HandledRevision ∧
    (Reconcile (fixedWorld (.ok svcA) none none none) () invalidTargetPatch none).trace = [] ∧
    (Reconcile (fixedWorld (.ok svcA) none none none) () invalidTargetPatch none).err =
      some (.wrap "virtualservicepatch.Reconcile: " (.plain "target name is required")) := by
  decide

/-- C7, amended: for every patch without deletion timestamp and with the marker
present, without previous snapshot, `Reconcile` fetches the target if and only
if the resource version differs from the handled revision and the target
reference passes validation; when the two revisions are equal it performs no
store call, leaves the patch unchanged and returns nil, so a run on the patch a
successful sync has left is a no-op. -/
theorem sync_iff_revisions_differ (w : World σ) (s : σ) (patch : VirtualServiceMerge)
    (hdel : IsZero patch.DeletionTimestamp = true)
    (hfin : Contains patch.Finalizers finalizerName = true) :
    ((∃ ns name res, Event.getTarget ns name res ∈ (Reconcile w s patch none).trace) ↔
      (patch.ResourceVersion ≠ patch.Status.HandledRevision ∧
        w.validate patch.Spec.Target = none)) ∧
    (patch.ResourceVersion = patch.Status.HandledRevision →
      (Reconcile w s patch none).trace = [] ∧ (Reconcile w s patch none).patch = patch ∧
      (Reconcile w s patch none).err = none ∧ (Reconcile w s patch none).st = s) ∧
    (∀ s1, (Reconcile w s1 (markHandled patch) none).trace = [] ∧
      (Reconcile w s1 (markHandled patch) none).patch = markHandled patch ∧
      (Reconcile w s1 (markHandled patch) none).err = none) := by
  have hpre := ContainsWithPrefix_of_Contains _ _ hfin
  have hsync : ∀ (s1 : σ) (p : VirtualServiceMerge), p.DeletionTimestamp = patch.DeletionTimestamp →
      p.Finalizers = patch.Finalizers → Reconcile w s1 p none = syncCurrent w s1 p := by
    intro s1 p h1 h2
    rw [Reconcile_none]
    simp [reconcileCurrent, h1, h2, hdel, hpre]
  have hequal : ∀ (s1 : σ) (p : VirtualServiceMerge),
      p.ResourceVersion = p.Status.HandledRevision → syncCurrent w s1 p = ⟨none, p, s1, []⟩ := by
    intro s1 p h
    simp [syncCurrent, h]
  refine ⟨?_, fun h => ?_, fun s1 => ?_⟩
  · rw [hsync s patch rfl rfl]
    constructor
    · rintro ⟨ns, name, res, hmem⟩
      rcases syncCurrent_cases w s patch with ⟨_, hs⟩ | ⟨hne, e, _, _, hs⟩ | ⟨hne, _, a, s2, _, hs⟩
      · rw [hs] at hmem; simp at hmem
      · refine ⟨hne, ?_⟩
        rw [hs] at hmem
        rcases updateTarget_cases w s patch false with
          ⟨ve, _, hr⟩ | ⟨_, _, hv, _⟩ | ⟨_, _, _, hv, _⟩ | ⟨_, _, hv, _⟩
        · rw [hr] at hmem; simp at hmem
        · exact hv
        · exact hv
        · exact hv
      · refine ⟨hne, ?_⟩
        rw [hs] at hmem
        rcases updateTarget_cases w s patch false with
          ⟨ve, _, hr⟩ | ⟨_, _, hv, _⟩ | ⟨_, _, _, hv, _⟩ | ⟨_, _, hv, _⟩
        · rw [hr] at hmem; simp [passedTrace, logNotFound] at hmem
        · exact hv
        · exact hv
        · exact hv
    · rintro ⟨hne, hv⟩
      have hfetch : ∃ res, Event.getTarget (targetNamespaceOf patch) patch.Spec.Target.Name res ∈
          (updateTarget w s patch false).trace := by
        rcases updateTarget_cases w s patch false with
          ⟨ve, hve, _⟩ | ⟨e, _, _, hr⟩ | ⟨t, _, _, _, hr⟩ | ⟨t, _, _, hr⟩
        · rw [hv] at hve; simp at hve
        · exact ⟨.fail e, by rw [hr]; simp⟩
        · exact ⟨.ok t, by rw [hr]; simp⟩
        · exact ⟨.ok t, by rw [hr]; simp⟩
      obtain ⟨res, hres⟩ := hfetch
      refine ⟨targetNamespaceOf patch, patch.Spec.Target.Name, res, ?_⟩
      rcases syncCurrent_cases w s patch with ⟨heq, _⟩ | ⟨_, e, _, _, hs⟩ | ⟨_, _, a, s2, _, hs⟩
      · exact absurd heq hne
      · rw [hs]; exact hres
      · rw [hs]
        refine List.mem_append_left _ ?_
        unfold passedTrace
        split
        · exact hres
        · exact List.mem_append_left _ hres
  · rw [hsync s patch rfl rfl, hequal s patch h]
    exact ⟨rfl, rfl, rfl, rfl⟩
  · rw [hsync s1 (markHandled patch) rfl rfl, hequal s1 (markHandled patch) rfl]
    exact ⟨rfl, rfl, rfl⟩

theorem sync_iff_revisions_differ_witness :
    (∃ ns name res, Event.getTarget ns name res ∈
      (Reconcile (fixedWorld (.ok svcA) none none none) ()
        (examplePatch none [finalizerName]) none).trace) ∧
    (Reconcile (fixedWorld (.ok svcA) none none none) ()
      (markHandled (examplePatch none [finalizerName])) none).trace = [] :=
  have h := sync_iff_revisions_differ (fixedWorld (.ok svcA) none none none) ()
    (examplePatch none [finalizerName]) (by decide) (by decide)
  ⟨h.1.mpr ⟨by decide, by decide⟩, (h.2.2 ()).1⟩

/-- C8: given a previous snapshot, `Reconcile` withdraws the routes of the
snapshot from the old target (logs the change of target and calls `updateTarget`
on the snapshot with remove=true, before anything else) if and only if the
resolved identities of the targets of snapshot and patch differ; when they are
equal the run is the run without previous snapshot.  In particular a snapshot
with empty target namespace living in namespace N and a patch in N naming the
same target with explicit namespace N cause no call on the old target. -/
theorem migration_iff_target_changed (w : World σ) (s : σ)
    (patch oldpatch : VirtualServiceMerge) :
    (logTargetChanged ∈ (Reconcile w s patch (some oldpatch)).trace ↔
      resolvedTarget oldpatch ≠ resolvedTarget patch) ∧
    (resolvedTarget oldpatch ≠ resolvedTarget patch →
      ∃ rest, (Reconcile w s patch (some oldpatch)).trace =
        logTargetChanged :: ((updateTarget w s oldpatch true).trace ++ rest)) ∧
    (resolvedTarget oldpatch = resolvedTarget patch →
      Reconcile w s patch (some oldpatch) = Reconcile w s patch none) ∧
    (oldpatch.Spec.Target.Namespace = "" → patch.Namespace = oldpatch.Namespace →
      patch.Spec.Target.Name = oldpatch.Spec.Target.Name →
      patch.Spec.Target.Namespace = oldpatch.Namespace →
      Reconcile w s patch (some oldpatch) = Reconcile w s patch none) := by
  have hsame : resolvedTarget oldpatch = resolvedTarget patch →
      Reconcile w s patch (some oldpatch) = Reconcile w s patch none := by
    intro heq
    have hc : targetChanged oldpatch patch = false := by
      rw [Bool.eq_false_iff, Ne, targetChanged_iff]
      exact fun h => h heq
    simp [Reconcile, migrate, hc]
  have hdiff : resolvedTarget oldpatch ≠ resolvedTarget patch →
      ∃ rest, (Reconcile w s patch (some oldpatch)).trace =
        logTargetChanged :: ((updateTarget w s oldpatch true).trace ++ rest) := by
    intro hne
    have hc := (targetChanged_iff oldpatch patch).mpr hne
    rcases Reconcile_cases w s patch (some oldpatch) with ⟨e, _, hR⟩ | ⟨_, hR⟩ <;>
      rcases migrate_cases w s patch (some oldpatch) with
        ⟨⟨h | ⟨o, ho, hco⟩, _⟩⟩ | ⟨o, ho, _, e', _, _, hm⟩ | ⟨o, ho, _, _, hm⟩
    all_goals first
      | (simp at h)
      | (simp only [Option.some.injEq] at ho; subst ho; rw [hc] at hco; simp at hco)
      | skip
    · simp only [Option.some.injEq] at ho; subst ho
      exact ⟨[], by rw [hR, hm]; simp⟩
    · simp only [Option.some.injEq] at ho; subst ho
      refine ⟨(passedTrace (updateTarget w s oldpatch true)).drop
        (updateTarget w s oldpatch true).trace.length, ?_⟩
      rw [hR, hm]
      simp only [passedTrace]
      split <;> simp
    · simp only [Option.some.injEq] at ho; subst ho
      refine ⟨(reconcileCurrent w (migrate w s patch (some oldpatch)).st patch).trace, ?_⟩
      rw [hR]
      simp only [Outcome.after]
      rw [hm]; simp
    · simp only [Option.some.injEq] at ho; subst ho
      refine ⟨(passedTrace (updateTarget w s oldpatch true)).drop
          (updateTarget w s oldpatch true).trace.length ++
        (reconcileCurrent w (migrate w s patch (some oldpatch)).st patch).trace, ?_⟩
      rw [hR]
      simp only [Outcome.after]
      rw [hm]
      simp only [passedTrace]
      split <;> simp
  refine ⟨⟨fun hmem => ?_, fun hne => ?_⟩, hdiff, hsame, fun h1 h2 h3 h4 => hsame ?_⟩
  · intro heq
    rw [hsame heq, Reconcile_none] at hmem
    exact logTargetChanged_not_mem_reconcileCurrent w s patch hmem
  · obtain ⟨rest, hrest⟩ := hdiff hne
    rw [hrest]; simp
  · simp [resolvedTarget, h1, h2, h3, h4]

theorem migration_iff_target_changed_witness :
    Reconcile (fixedWorld (.ok svcA) none none none) () (examplePatch none [finalizerName])
        (some { examplePatch none [finalizerName] with
          Spec := { Target := { Name := "svc-a", Namespace := "default" },
                    Patch := { Tcp := [], Tls := [], Http := ["r0"] } } }) =
      Reconcile (fixedWorld (.ok svcA) none none none) () (examplePatch none [finalizerName])
        none :=
  (migration_iff_target_changed (fixedWorld (.ok svcA) none none none) ()
    (examplePatch none [finalizerName])
    { examplePatch none [finalizerName] with
      Spec := { Target := { Name := "svc-a", Namespace := "default" },
                Patch := { Tcp := [], Tls := [], Http := ["r0"] } } }).2.2.1 (by decide)

/-- C9: when the resolved identities of the old and the new target differ, the
run starts with the log line of the change and the calls of `updateTarget` on
the snapshot with remove=true, which are a fetch and an update of the old
target only.  If that withdrawal fails with an error that is not classified as
not found, `Reconcile` returns this error, leaves the patch as it was and makes
no further call; if it fails with a not-found error, or succeeds, the rest of
the run is the run without previous snapshot from the store state reached. -/
theorem migration_runs_first (w : World σ) (s : σ) (patch oldpatch : VirtualServiceMerge)
    (hch : resolvedTarget oldpatch ≠ resolvedTarget patch) :
    (∀ ev ∈ (updateTarget w s oldpatch true).trace,
      (∃ res, ev = .getTarget (resolvedTarget oldpatch).2 (resolvedTarget oldpatch).1 res) ∨
      (∃ t a, ev = .updateTarget (resolvedTarget oldpatch).2 t a)) ∧
    (∀ e, (updateTarget w s oldpatch true).err = some e → w.isNotFound e = false →
      Reconcile w s patch (some oldpatch) =
        ⟨some e, patch, (updateTarget w s oldpatch true).st,
          logTargetChanged :: (updateTarget w s oldpatch true).trace⟩) ∧
    (∀ e, (updateTarget w s oldpatch true).err = some e → w.isNotFound e = true →
      Reconcile w s patch (some oldpatch) =
        (Reconcile w (updateTarget w s oldpatch true).st patch none).after
          (logTargetChanged :: (updateTarget w s oldpatch true).trace ++ [logNotFound])) ∧
    ((updateTarget w s oldpatch true).err = none →
      Reconcile w s patch (some oldpatch) =
        (Reconcile w (updateTarget w s oldpatch true).st patch none).after
          (logTargetChanged :: (updateTarget w s oldpatch true).trace)) := by
  have hc := (targetChanged_iff oldpatch patch).mpr hch
  refine ⟨fun ev hmem => ?_, fun e he hnf => ?_, fun e he hnf => ?_, fun he => ?_⟩
  · rcases updateTarget_trace_mem w s oldpatch true ev hmem with ⟨res, h⟩ | ⟨t, a, h, _⟩
    · exact Or.inl ⟨res, h⟩
    · exact Or.inr ⟨_, a, h⟩
  · simp [Reconcile, migrate, hc, he, hnf]
  · simp [Reconcile, migrate, hc, he, hnf, Outcome.after, Reconcile_none]
  · simp [Reconcile, migrate, hc, he, Outcome.after, Reconcile_none]

theorem migration_runs_first_witness :
    Reconcile (fixedWorld (.ok svcA) (some conflictErr) none none) ()
        (examplePatch none [finalizerName])
        (some { examplePatch none [finalizerName] with
          Spec := { Target := { Name := "svc-b", Namespace := "" },
                    Patch := { Tcp := [], Tls := [], Http := ["r1", "r2"] } } }) =
      ⟨some conflictErr, examplePatch none [finalizerName], (),
        [logTargetChanged,
         .getTarget "default" "svc-b" (.ok svcA),
         .updateTarget "default" { svcA with Http := ["other"] } (some conflictErr)]⟩ :=
  (migration_runs_first (fixedWorld (.ok svcA) (some conflictErr) none none) ()
    (examplePatch none [finalizerName])
    { examplePatch none [finalizerName] with
      Spec := { Target := { Name := "svc-b", Namespace := "" },
                Patch := { Tcp := [], Tls := [], Http := ["r1", "r2"] } } }
    (by decide)).2.1 conflictErr (by decide) (by decide)

/-- C10 as stated fails: when the update of the target fails with a not-found
error (the target was deleted after its fetch), `Reconcile` ignores the failed
write, advances the handled revision and returns nil. -/
theorem failed_target_update_ignored :
    (Reconcile (fixedWorld (.ok svcA) (some notFoundErr) none none) ()
        (examplePatch none [finalizerName]) none).err = none ∧
    (Reconcile (fixedWorld (.ok svcA) (some notFoundErr) none none) ()
        (examplePatch none [finalizerName]) none).trace =
      [.getTarget "default" "svc-a" (.ok svcA),
       .updateTarget "default" { svcA with Http := ["other", "r1", "r2"] } (some notFoundErr),
       logNotFound,
       .updateStatus (markHandled (examplePatch none [finalizerName])) none] := by
  decide

/-- C10, amended: for every run of `Reconcile` in which an update of the patch
fails, or an update of the patch status fails, or an update of a target fails
with an error that is not classified as not found, `Reconcile` returns a non-nil
error. -/
theorem write_failure_reaches_caller (w : World σ) (s : σ) (patch : VirtualServiceMerge)
    (oldpatchref : Option VirtualServiceMerge)
    (h : (∃ p e, Event.updatePatch p (some e) ∈ (Reconcile w s patch oldpatchref).trace) ∨
      (∃ p e, Event.updateStatus p (some e) ∈ (Reconcile w s patch oldpatchref).trace) ∨
      (∃ ns t e, Event.updateTarget ns t (some e) ∈ (Reconcile w s patch oldpatchref).trace ∧
        w.isNotFound e = false)) :
    (Reconcile w s patch oldpatchref).err ≠ none := by
  -- the failed write, as one event of the trace
  have hev : ∃ ev ∈ (Reconcile w s patch oldpatchref).trace,
      (∃ p e, ev = Event.updatePatch p (some e)) ∨ (∃ p e, ev = Event.updateStatus p (some e)) ∨
      (∃ ns t e, ev = Event.updateTarget ns t (some e) ∧ w.isNotFound e = false) := by
    rcases h with ⟨p, e, hm⟩ | ⟨p, e, hm⟩ | ⟨ns, t, e, hm, hnf⟩
    · exact ⟨_, hm, Or.inl ⟨p, e, rfl⟩⟩
    · exact ⟨_, hm, Or.inr (Or.inl ⟨p, e, rfl⟩)⟩
    · exact ⟨_, hm, Or.inr (Or.inr ⟨ns, t, e, rfl, hnf⟩)⟩
  obtain ⟨ev, hmem, hkind⟩ := hev
  -- such an event is not among events that were let pass
  have hnotLog : ∀ msg, ev ≠ Event.log msg := by
    intro msg hlog
    rcases hkind with ⟨_, _, h⟩ | ⟨_, _, h⟩ | ⟨_, _, _, h, _⟩ <;> rw [h] at hlog <;> simp at hlog
  have hnotGet : ∀ ns name res, ev ≠ Event.getTarget ns name res := by
    intro ns name res hget
    rcases hkind with ⟨_, _, h⟩ | ⟨_, _, h⟩ | ⟨_, _, _, h, _⟩ <;> rw [h] at hget <;> simp at hget
  have hnotPassedUpdate : ∀ ns t a, ev = Event.updateTarget ns t a →
      (∀ e, a = some e → w.isNotFound e = true) → False := by
    intro ns t a hupd hall
    rcases hkind with ⟨_, _, h⟩ | ⟨_, _, h⟩ | ⟨_, _, e, h, hnf⟩
    · rw [h] at hupd; simp at hupd
    · rw [h] at hupd; simp at hupd
    · rw [h] at hupd
      simp only [Event.updateTarget.injEq] at hupd
      rw [hall e hupd.2.2.symm] at hnf; simp at hnf
  have hnotPassed : ∀ (s1 : σ) (p : VirtualServiceMerge) (remove : Bool),
      Passed w (updateTarget w s1 p remove) → ev ∉ passedTrace (updateTarget w s1 p remove) := by
    intro s1 p remove hp hin
    rcases passedTrace_updateTarget_mem w s1 p remove hp ev hin with
      ⟨msg, h⟩ | ⟨ns, name, res, h⟩ | ⟨ns, t, a, h, hall⟩
    · exact hnotLog msg h
    · exact hnotGet ns name res h
    · exact hnotPassedUpdate ns t a h hall
  rcases Reconcile_cases w s patch oldpatchref with ⟨e, _, hR⟩ | ⟨hm, hR⟩
  · rw [hR]; simp
  · rw [hR] at hmem ⊢
    simp only [Outcome.after] at hmem ⊢
    rcases List.mem_append.mp hmem with hin | hin
    · exfalso
      rcases migrate_trace_mem w s patch oldpatchref ev hin with
        ⟨msg, h⟩ | ⟨ns, name, res, h⟩ | ⟨ns, t, a, h, hall⟩
      · exact hnotLog msg h
      · exact hnotGet ns name res h
      · exact hnotPassedUpdate ns t a h (fun e hae => hall e hae hm)
    · rcases reconcileCurrent_cases w (migrate w s patch oldpatchref).st patch with
        ⟨_, _, hc⟩ | ⟨_, _, hc⟩ | ⟨_, hc⟩
      · rw [hc] at hin ⊢
        simp only [List.mem_cons, List.mem_singleton, List.mem_nil_iff, or_false] at hin
        rcases hin with hin | hin
        · exact absurd hin (hnotLog _)
        · rcases hkind with ⟨_, e, h⟩ | ⟨_, _, h⟩ | ⟨_, _, _, h, _⟩
          · rw [h] at hin
            simp only [Event.updatePatch.injEq] at hin
            simp [← hin.2]
          · rw [h] at hin; simp at hin
          · rw [h] at hin; simp at hin
      · rw [hc] at hin ⊢
        rcases finalizeCurrent_cases w (migrate w s patch oldpatchref).st patch with
          ⟨e, _, _, hf⟩ | ⟨hp, a, s2, _, hf⟩
        · rw [hf]; simp
        · rw [hf] at hin ⊢
          rcases List.mem_append.mp hin with hin | hin
          · exact absurd hin (hnotPassed _ _ _ hp)
          · simp only [List.mem_singleton] at hin
            rcases hkind with ⟨_, e, h⟩ | ⟨_, _, h⟩ | ⟨_, _, _, h, _⟩
            · rw [h] at hin
              simp only [Event.updatePatch.injEq] at hin
              simp [← hin.2]
            · rw [h] at hin; simp at hin
            · rw [h] at hin; simp at hin
      · rw [hc] at hin ⊢
        rcases syncCurrent_cases w (migrate w s patch oldpatchref).st patch with
          ⟨_, hs⟩ | ⟨_, e, _, _, hs⟩ | ⟨_, hp, a, s2, _, hs⟩
        · rw [hs] at hin; simp at hin
        · rw [hs]; simp
        · rw [hs] at hin ⊢
          rcases List.mem_append.mp hin with hin | hin
          · exact absurd hin (hnotPassed _ _ _ hp)
          · simp only [List.mem_singleton] at hin
            rcases hkind with ⟨_, _, h⟩ | ⟨_, e, h⟩ | ⟨_, _, _, h, _⟩
            · rw [h] at hin; simp at hin
            · rw [h] at hin
              simp only [Event.updateStatus.injEq] at hin
              simp [← hin.2]
            · rw [h] at hin; simp at hin

theorem write_failure_reaches_caller_witness :
    (Reconcile (fixedWorld (.ok svcA) none none (some conflictErr)) ()
        (examplePatch none [finalizerName]) none).err ≠ none :=
  write_failure_reaches_caller (fixedWorld (.ok svcA) none none (some conflictErr)) ()
    (examplePatch none [finalizerName]) none
    (Or.inr (Or.inl ⟨markHandled (examplePatch none [finalizerName]), conflictErr, by decide⟩))

/-- C11, evaluated on the code: `Remove` returns at the first item equal to the
key, so on a list holding the key twice the result still contains it; with the
marker twice in the finalizer list, the deletion path of `Reconcile` withdraws
the routes and persists a patch whose finalizer list still holds the marker. -/
theorem Remove_keeps_second_occurrence :
    Remove "k" ["k", "k"] = ["k"] ∧
    Contains (Remove "k" ["k", "k"]) "k" = true ∧
    (Reconcile (fixedWorld (.ok svcA) none none none) ()
        (examplePatch (some 5) [finalizerName, finalizerName]) none).err = none ∧
    (Reconcile (fixedWorld (.ok svcA) none none none) ()
        (examplePatch (some 5) [finalizerName, finalizerName]) none).trace =
      [.getTarget "default" "svc-a" (.ok svcA),
       .updateTarget "default" svcA none,
       .updatePatch (examplePatch (some 5) [finalizerName]) none] ∧
    Contains (Reconcile (fixedWorld (.ok svcA) none none none) ()
        (examplePatch (some 5) [finalizerName, finalizerName]) none).patch.Finalizers
      finalizerName = true := by
  decide

/-- C12, evaluated on the code: for a fetched object marked for deletion whose
callback returns an error, `Run` returns through `errored`, with Requeue = true
and the error of the callback, against the comment of line 110 of `context.go`
(return but do not requeue). -/
theorem Run_requeues_failed_deletion :
    (examplePatch (some 5) [finalizerName]).DeletionTimestamp ≠ none ∧
    (Run (fixedRunWorld (examplePatch (some 5) [finalizerName]) (some conflictErr)) ()
        (examplePatch none [])).result = { Requeue := true } ∧
    (Run (fixedRunWorld (examplePatch (some 5) [finalizerName]) (some conflictErr)) ()
        (examplePatch none [])).err = some conflictErr := by
  decide

/-- What the code does on an object marked for deletion: for every request whose
object is fetched successfully and has a non-nil deletion timestamp, `Run` calls
the callback once, with deleted=true, performs no defaulting update, and returns
the error of the callback, with Requeue = false when the callback returns nil
and Requeue = true when it fails. -/
theorem Run_marked_for_deletion {ρ α : Type} (w : RunWorld ρ α) (s s1 : ρ)
    (object fetched : α) (t : Nat)
    (hget : w.get s object = (.inr fetched, s1))
    (hdel : w.GetDeletionTimestamp fetched = some t) :
    (Run w s object).trace =
      [logStart, .get none, logScheduledForDelete, .reconcile true (w.reconcile true s1).1,
       (match (w.reconcile true s1).1 with
        | some err => (errored err).1
        | none => complete.1),
       logEnd] ∧
    (∀ d a, RunEvent.reconcile d a ∈ (Run w s object).trace →
      d = true ∧ a = (w.reconcile true s1).1) ∧
    (Run w s object).trace.count (.reconcile true (w.reconcile true s1).1) = 1 ∧
    (∀ a, RunEvent.update a ∉ (Run w s object).trace) ∧
    (∀ a, RunEvent.statusUpdate a ∉ (Run w s object).trace) ∧
    (Run w s object).err = (w.reconcile true s1).1 ∧
    (Run w s object).result.Requeue = (w.reconcile true s1).1.isSome := by
  have htrace : (Run w s object).trace =
        [logStart, .get none, logScheduledForDelete, .reconcile true (w.reconcile true s1).1,
         (match (w.reconcile true s1).1 with
          | some err => (errored err).1
          | none => complete.1),
         logEnd] ∧
      (Run w s object).err = (w.reconcile true s1).1 ∧
      (Run w s object).result.Requeue = (w.reconcile true s1).1.isSome := by
    unfold Run
    rw [hget]
    simp only [hdel]
    rcases hcb : w.reconcile true s1 with ⟨a, s2⟩
    cases a <;> simp [RunOutcome.returning, complete, errored]
  obtain ⟨htr, herr, hreq⟩ := htrace
  refine ⟨htr, ?_, ?_, ?_, ?_, herr, hreq⟩
  · intro d a hmem
    rw [htr] at hmem
    cases hcb : (w.reconcile true s1).1 <;>
      simp [hcb, logStart, logScheduledForDelete, logEnd, complete, errored] at hmem <;>
      simp [hmem, hcb]
  · rw [htr]
    cases hcb : (w.reconcile true s1).1 <;>
      simp [List.count_cons, logStart, logScheduledForDelete, logEnd, complete, errored]
  · intro a hmem
    rw [htr] at hmem
    cases hcb : (w.reconcile true s1).1 <;>
      simp [hcb, logStart, logScheduledForDelete, logEnd, complete, errored] at hmem
  · intro a hmem
    rw [htr] at hmem
    cases hcb : (w.reconcile true s1).1 <;>
      simp [hcb, logStart, logScheduledForDelete, logEnd, complete, errored] at hmem

theorem Run_marked_for_deletion_witness :
    (Run (fixedRunWorld (examplePatch (some 5) [finalizerName]) none) ()
        (examplePatch none [])).err = none ∧
    (Run (fixedRunWorld (examplePatch (some 5) [finalizerName]) none) ()
        (examplePatch none [])).result.Requeue = false :=
  have h := Run_marked_for_deletion
    (fixedRunWorld (examplePatch (some 5) [finalizerName]) none) () ()
    (examplePatch none []) (examplePatch (some 5) [finalizerName]) 5 rfl rfl
  ⟨h.2.2.2.2.2.1, h.2.2.2.2.2.2⟩

/-- C13, evaluated on the code: with X=42 in the environment, `Int64Or` and
`Float64Or` called on X do not return 42, whatever the float parser does; they
hand the value 42 to `RequireFloat64` as the name of a variable, which is not
set, and `log.Fatalf` ends the process.  With X=Y the number returned is the one
written in Y, so the result depends on a variable other than X. -/
theorem Int64Or_looks_value_up_as_name {φ : Type} (parseFloat : String → String ⊕ φ)
    (toInt64 : φ → Int) (dflt : φ) :
    Int64Or parseFloat toInt64 (envOf [("X", "42")]) "X" 0 =
      .fatal "expecting value for environment variable: 42" ∧
    Float64Or parseFloat (envOf [("X", "42")]) "X" dflt =
      .fatal "expecting value for environment variable: 42" ∧
    Int64Or parseDecimal id (envOf [("X", "Y"), ("Y", "7")]) "X" 0 = .ret 7 ∧
    Int64Or parseDecimal id (envOf [("X", "Y"), ("Y", "8")]) "X" 0 = .ret 8 := by
  have h1 : Value (envOf [("X", "42")]) "X" = "42" := by decide
  have h2 : Value (envOf [("X", "42")]) "42" = "" := by decide
  refine ⟨?_, ?_, by decide, by decide⟩
  · simp [Int64Or, RequireFloat64, RequireValue, h1, h2]
  · simp [Float64Or, RequireFloat64, RequireValue, h1, h2]

end VSMerger
